import Mathlib

/-!
Verification of the ROI target sampler (`src/maskr/datagen/head_targets.py`,
`build_head_targets`) and the loss module (`src/maskmm/loss.py`) of the
maskr repository, as a shallow embedding over `List` and `ℚ`.

Conventions of the embedding:
* tensors become nested lists; a `[batch, N, …]` tensor is a `List` of
  per-image `List`s, and `squash` (removing the batch dimension) is `List.join`;
* floating point numbers become `ℚ`; the real logarithm used inside
  `box_refinement` never has its value inspected by any claim, so it is a
  parameter `rlog : ℚ → ℚ` of the development;
* `torch.randperm n` is a parameter `perm : ℕ → List ℕ`; a draw is valid when
  `perm n` is a permutation of `List.range n` (`IsRandPerm`).  The two calls
  in `build_head_targets` draw independently, hence two parameters;
* python `int(x)` is truncation toward zero (`truncQ`), python `round(x)` is
  round-half-to-even (`pyRound`), and a python slice `x[:n]` (whose bound may
  in principle be negative) is `pySliceTo`;
* `torch.max(t, dim)` over an empty dimension raises, so per-row maxima are
  `Option`-valued (`rowMax`, `rowMaxes`) and `buildHeadTargets` returns an
  `Option`; out-of-range tensor indexing, which raises in torch, is likewise
  `Option`-valued where a claim depends on it (`rpnBboxPair`).
-/

/-- A box `(y1, x1, y2, x2)` in normalized coordinates, components in `ℚ`. -/
structure Box where
  y1 : ℚ
  x1 : ℚ
  y2 : ℚ
  x2 : ℚ
deriving DecidableEq

/-- The all-zero box, used as the (never observed in-range) default of gathers. -/
def box0 : Box := ⟨0, 0, 0, 0⟩

/-- Modelled from the spec: §4.1 Geometry Library, `compute_overlaps`
(`maskr.utils.box_utils`, not under `src/`).  IoU of two boxes:
intersection area over union area, `0` when the union area is `0`. -/
def iou (a b : Box) : ℚ :=
  let ih := max 0 (min a.y2 b.y2 - max a.y1 b.y1)
  let iw := max 0 (min a.x2 b.x2 - max a.x1 b.x1)
  let inter := ih * iw
  let areaA := (a.y2 - a.y1) * (a.x2 - a.x1)
  let areaB := (b.y2 - b.y1) * (b.x2 - b.x1)
  let uni := areaA + areaB - inter
  if uni = 0 then 0 else inter / uni

/-- Embedding of `torch.max` of a row of values; `none` on an empty row (torch raises). -/
def rowMax : List ℚ → Option ℚ
  | [] => none
  | x :: xs => some (xs.foldl max x)

/-- Per-row maxima of a matrix (`torch.max(t, dim=1)[0]`); `none` if some row
is empty. -/
def rowMaxes : List (List ℚ) → Option (List ℚ)
  | [] => some []
  | r :: rs => do
      let v ← rowMax r
      let vs ← rowMaxes rs
      some (v :: vs)

/-- Embedding of `torch.max(t, dim=1)[1]` for one row: index of the first occurrence of the
row maximum (`0` for an empty row, which torch rejects). -/
def argmaxIdx (l : List ℚ) : ℕ :=
  l.indexOf ((rowMax l).getD 0)

/-- Indices of the `true` entries, in order: `torch.nonzero` on a 1-D mask. -/
def trueIdxs : List Bool → List ℕ
  | [] => []
  | b :: l => if b then 0 :: (trueIdxs l).map (· + 1) else (trueIdxs l).map (· + 1)

/-- Embedding of `torch.nonzero` on a 2-D mask: row-major list of `(row, col)` index pairs. -/
def nonzero2 (m : List (List Bool)) : List (ℕ × ℕ) :=
  (m.enum.map (fun p => (trueIdxs p.2).map (fun j => (p.1, j)))).flatten

/-- Python `int(q)`: truncation toward zero. -/
def truncQ (q : ℚ) : ℤ :=
  if 0 ≤ q then ⌊q⌋ else ⌈q⌉

/-- Python `round(q)` (and `torch.round`): round half to even. -/
def pyRound (q : ℚ) : ℤ :=
  let f := ⌊q⌋
  let r := q - f
  if r < 1/2 then f
  else if 1/2 < r then f + 1
  else if f % 2 = 0 then f else f + 1

/-- Python slice `l[:n]` for a possibly negative `ℤ` bound. -/
def pySliceTo (n : ℤ) (l : List α) : List α :=
  if 0 ≤ n then l.take n.toNat else l.take (l.length - (-n).toNat)

/-- Validity of a random-permutation oracle: each draw `f n` is a permutation
of `List.range n`, exactly the contract of `torch.randperm n`. -/
def IsRandPerm (f : ℕ → List ℕ) : Prop :=
  ∀ n, (f n).Perm (List.range n)

/-- A box-regression delta `(dy, dx, dh, dw)`. -/
structure Delta where
  dy : ℚ
  dx : ℚ
  dh : ℚ
  dw : ℚ
deriving DecidableEq

/-- Modelled from the spec: §4.1 Geometry Library, `box_refinement`
(`maskr.utils.box_utils`, not under `src/`).  One delta per paired box:
`dy=(yc_t−yc)/h`, `dx=(xc_t−xc)/w`, `dh=log(h_t/h)`, `dw=log(w_t/w)`, with the
real logarithm abstracted as `rlog`. -/
def boxRefinement (rlog : ℚ → ℚ) (boxes target : List Box) : List Delta :=
  (boxes.zip target).map (fun bt =>
    let b := bt.1
    let t := bt.2
    let h := b.y2 - b.y1
    let w := b.x2 - b.x1
    let yc := b.y1 + h / 2
    let xc := b.x1 + w / 2
    let th := t.y2 - t.y1
    let tw := t.x2 - t.x1
    let tyc := t.y1 + th / 2
    let txc := t.x1 + tw / 2
    ⟨(tyc - yc) / h, (txc - xc) / w, rlog (th / h), rlog (tw / w)⟩)

/-- Componentwise division of a delta by the configured standard deviations
(`deltas /= std_dev`). -/
def divStd (sd d : Delta) : Delta :=
  ⟨d.dy / sd.dy, d.dx / sd.dx, d.dh / sd.dh, d.dw / sd.dw⟩

/-- A ground-truth mask, a 2-D boolean grid. -/
abbrev Mask := List (List Bool)

/-- A soft (rational-valued) 2-D grid, the output type of crop-and-resize. -/
abbrev SoftMask := List (List ℚ)

/-- Embedding of `torch.round` applied entrywise to a soft mask (line 119 of
`head_targets.py`), hardening it to `{0, 1}` values. -/
def roundMask (m : SoftMask) : SoftMask :=
  m.map (List.map (fun v => ((pyRound v : ℤ) : ℚ)))

/-- The configuration bundle consumed by `build_head_targets` (§6 of the spec;
`MASK_SHAPE` is absorbed into the abstract crop-and-resize parameter). -/
structure Config where
  imageShape : ℚ × ℚ
  trainRoisPerImage : ℤ
  roiPositiveRatio : ℚ
  useMiniMask : Bool
  bboxStdDev : Delta

/-- Normalization `gt_boxes / scale` with `scale = [h, w, h, w]` (lines 42–44). -/
def normBoxes (cfg : Config) (bs : List Box) : List Box :=
  let h := cfg.imageShape.1
  let w := cfg.imageShape.2
  bs.map (fun b => ⟨b.y1 / h, b.x1 / w, b.y2 / h, b.x2 / w⟩)

/-- The state of `build_head_targets` after lines 41–66: the (possibly
crowd-filtered) ground truth, the `no_crowd_bool` mask, and the proposal ×
ground-truth overlap matrix.  The filtering of ground truth to the
`class_id > 0` subset happens only inside the `if` on line 49, i.e. only when
at least one `class_id < 0` (crowd) entry exists. -/
structure Prep where
  gtIds : List ℤ
  gtBoxes : List Box
  gtMasks : List Mask
  noCrowd : List Bool
  overlaps : List (List ℚ)

/-- Lines 41–66 of `build_head_targets`: normalize `gt_boxes`, split off crowd
ground truth (only when some crowd entry exists), compute `no_crowd_bool` from
the crowd overlaps (threshold `0.001`), and compute the overlap matrix of the
proposals against the (remaining) ground-truth boxes. -/
def headPrep (cfg : Config) (proposals : List Box) (gtClassIds : List ℤ)
    (gtBoxes0 : List Box) (gtMasks0 : List Mask) : Prep :=
  let gtBoxesN := normBoxes cfg gtBoxes0
  let crowdIx := trueIdxs (gtClassIds.map (fun c => decide (c < 0)))
  if crowdIx.length ≠ 0 then
    let nonCrowdIx := trueIdxs (gtClassIds.map (fun c => decide (0 < c)))
    let crowdBoxes := crowdIx.map (fun i => gtBoxesN.getD i box0)
    let gtIds := nonCrowdIx.map (fun i => gtClassIds.getD i 0)
    let gtBoxes := nonCrowdIx.map (fun i => gtBoxesN.getD i box0)
    let gtMasks := nonCrowdIx.map (fun i => gtMasks0.getD i [])
    let crowdOverlaps := proposals.map (fun p => crowdBoxes.map (iou p))
    let noCrowd := crowdOverlaps.map (fun row => decide ((rowMax row).getD 0 < 1/1000))
    ⟨gtIds, gtBoxes, gtMasks, noCrowd, proposals.map (fun p => gtBoxes.map (iou p))⟩
  else
    ⟨gtClassIds, gtBoxesN, gtMasks0, List.replicate proposals.length true,
      proposals.map (fun p => gtBoxesN.map (iou p))⟩

/-- Line 72: candidate positives are the proposals whose max IoU is `≥ 0.5`. -/
def posCandidatesOf (riMax : List ℚ) : List ℕ :=
  trueIdxs (riMax.map (fun v => decide ((1:ℚ)/2 ≤ v)))

/-- Lines 77–82: the sampled positive proposal indices — a
`torch.randperm`-prefix of size `int(TRAIN_ROIS_PER_IMAGE *
ROI_POSITIVE_RATIO)` of the candidate positives. -/
def positiveIndicesOf (permPos : ℕ → List ℕ) (cfg : Config) (riMax : List ℚ) :
    List ℕ :=
  let cand := posCandidatesOf riMax
  let tgt := truncQ ((cfg.trainRoisPerImage : ℚ) * cfg.roiPositiveRatio)
  (pySliceTo tgt (permPos cand.length)).map (fun j => cand.getD j 0)

/-- The per-positive outputs of the sampler. -/
structure Positives where
  rois : List Box
  classIds : List ℤ
  deltas : List Delta
  masks : List SoftMask
deriving DecidableEq

/-- Lines 100–111: when `USE_MINI_MASK` is set, re-express each positive roi in
the coordinate frame of its assigned ground-truth box. -/
def miniMaskBoxes (posRois gtAssigned : List Box) : List Box :=
  (posRois.zip gtAssigned).map (fun bg =>
    let b := bg.1
    let g := bg.2
    let gh := g.y2 - g.y1
    let gw := g.x2 - g.x1
    ⟨(b.y1 - g.y1) / gh, (b.x1 - g.x1) / gw, (b.y2 - g.y1) / gh, (b.x2 - g.x1) / gw⟩)

/-- Lines 76–121 of `build_head_targets`: subsample the positives, assign each
kept positive to the ground-truth box of its maximal overlap (first index on
ties), record the assigned class ids, the std-dev-normalized refinement deltas
and the cropped, resized and rounded mask targets.  `cropResize` abstracts the
external `CropAndResizeFunction` primitive (`maskr.lib.roialign`, not under
`src/`); modelled from the spec §6 it returns one resized grid per box, and
`box_ids = arange(len(roi_masks))` pairs the `i`-th box with the `i`-th mask,
i.e. a `zip`. -/
def samplePositives (cropResize : Mask → Box → SoftMask) (rlog : ℚ → ℚ)
    (permPos : ℕ → List ℕ) (cfg : Config) (proposals : List Box) (prep : Prep)
    (riMax : List ℚ) : Positives :=
  if (posCandidatesOf riMax).length ≠ 0 then
    let posIdx := positiveIndicesOf permPos cfg riMax
    let positiveRois := posIdx.map (fun i => proposals.getD i box0)
    let positiveOverlaps := posIdx.map (fun i => prep.overlaps.getD i [])
    let assign := positiveOverlaps.map argmaxIdx
    let roiGtBoxes := assign.map (fun j => prep.gtBoxes.getD j box0)
    let classIds := assign.map (fun j => prep.gtIds.getD j 0)
    let roiMasks := assign.map (fun j => prep.gtMasks.getD j [])
    let deltas := (boxRefinement rlog positiveRois roiGtBoxes).map (divStd cfg.bboxStdDev)
    let boxes := if cfg.useMiniMask then miniMaskBoxes positiveRois roiGtBoxes
                 else positiveRois
    let masks := (roiMasks.zip boxes).map (fun mb => roundMask (cropResize mb.1 mb.2))
    ⟨positiveRois, classIds, deltas, masks⟩
  else
    ⟨[], [], [], []⟩

/-- Lines 124–125: candidate negatives are the proposals with max IoU `< 0.5`
that are not flagged in-crowd. -/
def negCandidatesOf (riMax : List ℚ) (noCrowd : List Bool) : List ℕ :=
  trueIdxs (List.zipWith (fun v nc => decide (v < (1:ℚ)/2) && nc) riMax noCrowd)

/-- Lines 127–133: the sampled negative proposal indices — only drawn when a
positive was kept, a `torch.randperm`-prefix of size
`int(positive_count / ROI_POSITIVE_RATIO − positive_count)` of the candidate
negatives. -/
def negativeIndicesOf (permNeg : ℕ → List ℕ) (cfg : Config) (riMax : List ℚ)
    (noCrowd : List Bool) (positiveCount : ℕ) : List ℕ :=
  let cand := negCandidatesOf riMax noCrowd
  if cand.length ≠ 0 ∧ 0 < positiveCount then
    let r := 1 / cfg.roiPositiveRatio
    let negCount := truncQ (r * positiveCount - positiveCount)
    (pySliceTo negCount (permNeg cand.length)).map (fun j => cand.getD j 0)
  else []

/-- The per-image output of `build_head_targets`: sampled rois (positives
first, then negatives) and the class ids, deltas and mask targets of the
positives only. -/
structure HeadTargets where
  rois : List Box
  classIds : List ℤ
  deltas : List Delta
  masks : List SoftMask
deriving DecidableEq

/-- The per-image body of `build_head_targets` (`head_targets.py`, lines
34–138; the `@batch_slice(4)` decorator, which maps it over the batch, is not
needed by any per-image claim).  Returns `none` exactly where torch raises:
when `torch.max(overlaps, dim=1)` hits an empty ground-truth dimension. -/
def buildHeadTargets (cropResize : Mask → Box → SoftMask) (rlog : ℚ → ℚ)
    (permPos permNeg : ℕ → List ℕ) (cfg : Config) (proposals : List Box)
    (gtClassIds : List ℤ) (gtBoxes0 : List Box) (gtMasks0 : List Mask) :
    Option HeadTargets := do
  let prep := headPrep cfg proposals gtClassIds gtBoxes0 gtMasks0
  let riMax ← rowMaxes prep.overlaps
  let pos := samplePositives cropResize rlog permPos cfg proposals prep riMax
  let negIdx := negativeIndicesOf permNeg cfg riMax prep.noCrowd pos.rois.length
  let negativeRois := negIdx.map (fun i => proposals.getD i box0)
  some ⟨pos.rois ++ negativeRois, pos.classIds, pos.deltas, pos.masks⟩

/-- Embedding of `squash` from `loss.py` line 7: remove the batch dimension,
`(batch, N, …) → (batch*N, …)`. -/
def squash (x : List (List α)) : List α := x.flatten

/-- The tensors `rpn_class` (`loss.py` lines 12–36) builds and passes to
`F.cross_entropy`.  Input shapes follow the function's docstring:
`rpn_match : [batch, anchors, 1]`, `rpn_class_logits : [batch, anchors, 2]`.
After `squash`, `rpn_match.ne(0).nonzero()` yields `(row, 0)` pairs, so the
advanced indexing `rpn_class_logits[indices[:, 0], indices[:, 1]]` gathers the
scalar `logits[row, 0]` per selected anchor — a 1-D tensor of the class-0
logits — and likewise for `anchor_class`. -/
def rpnClassGather (rpnMatch : List (List (List ℤ)))
    (rpnClassLogits : List (List (List ℚ))) : List ℚ × List ℤ :=
  let m2 := squash rpnMatch
  let logits2 := squash rpnClassLogits
  let anchorClass := m2.map (List.map (fun v => if v = 1 then (1:ℤ) else 0))
  let idx := nonzero2 (m2.map (List.map (fun v => decide (v ≠ 0))))
  (idx.map (fun ij => (logits2.getD ij.1 []).getD ij.2 0),
   idx.map (fun ij => (anchorClass.getD ij.1 []).getD ij.2 0))

/-- Modelled from the spec: the RPN classification selection the spec (§4.3)
and claim C8 describe — the full 2-logit rows of exactly the anchors with
match label `≠ 0`, paired with binary targets (`1 → 1`, `−1 → 0`). -/
def rpnClassClaimSelect (rpnMatch : List (List (List ℤ)))
    (rpnClassLogits : List (List (List ℚ))) : List (List ℚ) × List ℤ :=
  let pairs := ((squash rpnMatch).map (fun r => r.getD 0 0)).zip (squash rpnClassLogits)
  let sel := pairs.filter (fun p => decide (p.1 ≠ 0))
  (sel.map (fun p => p.2), sel.map (fun p => if p.1 = 1 then 1 else 0))

/-- The pair of tensors `rpn_bbox` (`loss.py` lines 38–69) passes to
`F.smooth_l1_loss`.  Input shapes follow the docstring:
`target_bbox : [batch, max positive anchors, 4]`, `rpn_match :
[batch, anchors, 1]`, predicted `rpn_bbox : [batch, anchors, 4]`.  All three
are `squash`ed first; the prediction gather therefore picks the scalar
component `pred[row, 0]` per positive anchor, `item_counts =
rpn_match.eq(1).sum(dim=1)` is a per-flattened-anchor 0/1 vector (not a
per-image count), and the trim loop `target_bbox[i, :count]` indexes target
rows by flattened anchor position — raising an IndexError (`none` here) as
soon as `i` reaches the number of flattened target rows. -/
def rpnBboxPair (targetBbox : List (List (List ℚ)))
    (rpnMatch : List (List (List ℤ)))
    (rpnBboxPred : List (List (List ℚ))) : Option (List ℚ × List ℚ) := do
  let tb := squash targetBbox
  let m2 := squash rpnMatch
  let pb := squash rpnBboxPred
  let idx := nonzero2 (m2.map (List.map (fun v => decide (v = 1))))
  let picked := idx.map (fun ij => (pb.getD ij.1 []).getD ij.2 0)
  let itemCounts := m2.map (fun row => (row.filter (fun v => decide (v = 1))).length)
  let trimmed ← itemCounts.enum.mapM (fun ic =>
      if h : ic.1 < tb.length then some ((tb.get ⟨ic.1, h⟩).take ic.2) else none)
  some (picked, trimmed.flatten)

/-- Modelled from the spec: the RPN box-regression pairing the spec (§4.3, §9)
and claim C2 describe — per image, trim the zero-padded target rows to that
image's count of match-label-1 anchors, concatenate in image order, and pair
with the full predicted 4-delta rows at the positive-anchor positions. -/
def rpnBboxClaimPair (targetBbox : List (List (List ℚ)))
    (rpnMatch : List (List (List ℤ)))
    (rpnBboxPred : List (List (List ℚ))) : List (List ℚ) × List (List ℚ) :=
  let counts := rpnMatch.map (fun img => (img.filter (fun r => decide (r.getD 0 0 = 1))).length)
  let targets := ((targetBbox.zip counts).map (fun ic => ic.1.take ic.2)).flatten
  let preds := ((rpnMatch.zip rpnBboxPred).map (fun mp =>
      ((mp.1.zip mp.2).filter (fun q => decide (q.1.getD 0 0 = 1))).map (fun q => q.2))).flatten
  (preds, targets)

/-- Embedding of `mrcnn_class` (`loss.py` lines 71–87), with the external `F.cross_entropy`
primitive abstracted as `ce`.  Input shapes per the docstring:
`target_class_ids : [batch, num_rois]`, `pred_class_logits :
[batch, num_rois, num_classes]`.  The guard is on the emptiness of the
flattened class-id tensor. -/
def mrcnnClass (ce : List (List ℚ) → List ℤ → ℚ)
    (targetClassIds : List (List ℤ))
    (predClassLogits : List (List (List ℚ))) : ℚ :=
  let pl := squash predClassLogits
  let tc := squash targetClassIds
  if tc.length ≠ 0 then ce pl tc else 0

/-- Embedding of `mrcnn_bbox` (`loss.py` lines 89–118), with `F.smooth_l1_loss` abstracted
as `sl1`.  Shapes per the docstring: `target_bbox : [batch, num_rois, 4]`,
`target_class_ids : [batch, num_rois]`, `pred_bbox :
[batch, num_rois, num_classes, 4]`.  Inside the nonempty branch, the rows with
class id `> 0` are selected and the prediction is gathered from the class slot
indexed by each roi's own class id. -/
def mrcnnBbox (sl1 : List (List ℚ) → List (List ℚ) → ℚ)
    (targetBbox : List (List (List ℚ)))
    (targetClassIds : List (List ℤ))
    (predBbox : List (List (List (List ℚ)))) : ℚ :=
  let tb := squash targetBbox
  let tc := squash targetClassIds
  let pb := squash predBbox
  if tc.length ≠ 0 then
    let posIx := trueIdxs (tc.map (fun c => decide (0 < c)))
    let posCls := posIx.map (fun i => (tc.getD i 0).toNat)
    let tbSel := posIx.map (fun i => tb.getD i [])
    let pbSel := (posIx.zip posCls).map (fun ic => (pb.getD ic.1 []).getD ic.2 [])
    sl1 pbSel tbSel
  else 0

/-- Embedding of `mrcnn_mask` (`loss.py` lines 120–151), with `F.binary_cross_entropy`
abstracted as `bce`.  `target_masks : [batch, num_rois, H, W]`,
`target_class_ids : [batch, num_rois]`; the gather
`pred_masks[indices[:, 0], indices[:, 1], :, :]` addresses the class with the
second index of the squashed tensor, which fixes the predicted-mask layout as
`[batch, num_rois, num_classes, H, W]` (the docstring's channels-last wording
is a stale copy of the TF original and is unusable by this very indexing). -/
def mrcnnMask (bce : List SoftMask → List SoftMask → ℚ)
    (targetMasks : List (List SoftMask))
    (targetClassIds : List (List ℤ))
    (predMasks : List (List (List SoftMask))) : ℚ :=
  let tm := squash targetMasks
  let tc := squash targetClassIds
  let pm := squash predMasks
  if tc.length ≠ 0 then
    let posIx := trueIdxs (tc.map (fun c => decide (0 < c)))
    let posCls := posIx.map (fun i => (tc.getD i 0).toNat)
    let yTrue := posIx.map (fun i => tm.getD i [])
    let yPred := (posIx.zip posCls).map (fun ic => (pm.getD ic.1 []).getD ic.2 [])
    bce yPred yTrue
  else 0

/-- Modelled from the spec: "select only ROIs with target class id > 0" — the
elements of `xs` at the positions whose class id is positive. -/
def claimPosSelect (tc : List ℤ) (xs : List α) : List α :=
  ((tc.zip xs).filter (fun q => decide (0 < q.1))).map (fun q => q.2)

/-- Modelled from the spec: "gather the class-specific prediction, the slice
chosen by the ROI's own assigned class id" — for each position with class id
`c > 0`, the entry in slot `c` of that position's per-class predictions. -/
def claimClassGather (tc : List ℤ) (preds : List (List α)) (d : α) : List α :=
  ((tc.zip preds).filter (fun q => decide (0 < q.1))).map (fun q => q.2.getD q.1.toNat d)

theorem trueIdxs_mem : ∀ {bs : List Bool} {i : ℕ},
    i ∈ trueIdxs bs ↔ i < bs.length ∧ bs.getD i false = true := by
  intro bs
  induction bs with
  | nil => intro i; simp [trueIdxs]
  | cons b l ih =>
    intro i
    cases b with
    | false =>
      simp only [trueIdxs, if_neg, Bool.false_eq_true, not_false_iff, List.mem_map]
      constructor
      · rintro ⟨j, hj, rfl⟩
        have h := ih.mp hj
        exact ⟨Nat.succ_lt_succ h.1, by simpa [List.getD_cons_succ] using h.2⟩
      · rintro ⟨h1, h2⟩
        cases i with
        | zero => simp [List.getD_cons_zero] at h2
        | succ j =>
          exact ⟨j, ih.mpr ⟨Nat.lt_of_succ_lt_succ h1,
            by simpa [List.getD_cons_succ] using h2⟩, rfl⟩
    | true =>
      simp only [trueIdxs, if_pos, List.mem_cons, List.mem_map]
      constructor
      · rintro (rfl | ⟨j, hj, rfl⟩)
        · exact ⟨Nat.succ_pos _, by simp [List.getD_cons_zero]⟩
        · have h := ih.mp hj
          exact ⟨Nat.succ_lt_succ h.1, by simpa [List.getD_cons_succ] using h.2⟩
      · rintro ⟨h1, h2⟩
        cases i with
        | zero => exact Or.inl rfl
        | succ j =>
          exact Or.inr ⟨j, ih.mpr ⟨Nat.lt_of_succ_lt_succ h1,
            by simpa [List.getD_cons_succ] using h2⟩, rfl⟩

theorem trueIdxs_nodup : ∀ (bs : List Bool), (trueIdxs bs).Nodup := by
  intro bs
  induction bs with
  | nil => simp [trueIdxs]
  | cons b l ih =>
    have hmap : ((trueIdxs l).map (· + 1)).Nodup :=
      ih.map (fun x y h => by omega)
    cases b with
    | false => simpa [trueIdxs] using hmap
    | true =>
      simp only [trueIdxs, if_pos, List.nodup_cons]
      exact ⟨by simp, hmap⟩

theorem foldl_max_mem : ∀ (xs : List ℚ) (x : ℚ), xs.foldl max x ∈ x :: xs := by
  intro xs
  induction xs with
  | nil => intro x; simp
  | cons a t ih =>
    intro x
    rw [List.foldl_cons]
    have h := ih (max x a)
    rcases List.mem_cons.mp h with h1 | h1
    · rw [h1]
      rcases max_choice x a with h2 | h2 <;> rw [h2] <;> simp
    · exact List.mem_cons_of_mem _ (List.mem_cons_of_mem _ h1)

theorem le_foldl_max : ∀ (xs : List ℚ) (x y : ℚ), y ∈ x :: xs → y ≤ xs.foldl max x := by
  intro xs
  induction xs with
  | nil => intro x y h; simp at h; simp [h]
  | cons a t ih =>
    intro x y h
    rw [List.foldl_cons]
    have hhead : max x a ≤ t.foldl max (max x a) :=
      ih (max x a) (max x a) (List.mem_cons_self _ _)
    rcases List.mem_cons.mp h with rfl | h1
    · exact le_trans (le_max_left y a) hhead
    · rcases List.mem_cons.mp h1 with rfl | h2
      · exact le_trans (le_max_right x y) hhead
      · exact ih (max x a) y (List.mem_cons.mpr (Or.inr h2))

theorem rowMax_mem {l : List ℚ} {v : ℚ} (h : rowMax l = some v) : v ∈ l := by
  cases l with
  | nil => simp [rowMax] at h
  | cons x xs =>
    simp only [rowMax, Option.some_inj] at h
    subst h
    exact foldl_max_mem xs x

theorem rowMax_ge {l : List ℚ} {v : ℚ} (h : rowMax l = some v) :
    ∀ x ∈ l, x ≤ v := by
  cases l with
  | nil => simp [rowMax] at h
  | cons x xs =>
    simp only [rowMax, Option.some_inj] at h
    subst h
    intro y hy
    exact le_foldl_max xs x y hy

theorem rowMax_ne_nil {l : List ℚ} {v : ℚ} (h : rowMax l = some v) : l ≠ [] := by
  cases l with
  | nil => simp [rowMax] at h
  | cons x xs => simp

theorem argmaxIdx_lt {l : List ℚ} {v : ℚ} (h : rowMax l = some v) :
    argmaxIdx l < l.length := by
  have hm : v ∈ l := rowMax_mem h
  simp only [argmaxIdx, h, Option.getD_some]
  exact List.indexOf_lt_length.mpr hm

theorem rowMaxes_spec : ∀ {ls : List (List ℚ)} {r : List ℚ},
    rowMaxes ls = some r →
    r.length = ls.length ∧
      ∀ i, i < ls.length → rowMax (ls.getD i []) = some (r.getD i 0) := by
  intro ls
  induction ls with
  | nil =>
    intro r h
    simp only [rowMaxes, Option.some_inj] at h
    subst h
    exact ⟨rfl, by intro i hi; exact absurd hi (Nat.not_lt_zero i)⟩
  | cons a rs ih =>
    intro r h
    simp only [rowMaxes] at h
    cases hv : rowMax a with
    | none => rw [hv] at h; simp at h
    | some v =>
      rw [hv] at h
      cases hvs : rowMaxes rs with
      | none => rw [hvs] at h; simp at h
      | some vs =>
        rw [hvs] at h
        simp at h
        subst h
        obtain ⟨hlen, hidx⟩ := ih hvs
        refine ⟨by simp [hlen], ?_⟩
        intro i hi
        cases i with
        | zero => simpa [List.getD_cons_zero] using hv
        | succ j =>
          simp only [List.getD_cons_succ]
          exact hidx j (by simpa using hi)

theorem pySliceTo_of_nonneg {n : ℤ} (h : 0 ≤ n) (l : List α) :
    pySliceTo n l = l.take n.toNat := if_pos h

theorem pySliceTo_length {n : ℤ} (h : 0 ≤ n) (l : List α) :
    (pySliceTo n l).length = min n.toNat l.length := by
  rw [pySliceTo_of_nonneg h, List.length_take]

theorem pySliceTo_sublist (n : ℤ) (l : List α) :
    (pySliceTo n l).Sublist l := by
  unfold pySliceTo
  split_ifs <;> exact List.take_sublist _ _

theorem truncQ_of_nonneg {q : ℚ} (h : 0 ≤ q) : truncQ q = ⌊q⌋ := if_pos h

theorem truncQ_nonneg {q : ℚ} (h : 0 ≤ q) : 0 ≤ truncQ q := by
  rw [truncQ_of_nonneg h]
  exact Int.floor_nonneg.mpr h

theorem floor_le_pyRound (q : ℚ) : ⌊q⌋ ≤ pyRound q := by
  simp only [pyRound]
  split_ifs <;> omega

theorem map_getD_range (l : List α) (d : α) :
    (List.range l.length).map (fun i => l.getD i d) = l := by
  induction l with
  | nil => simp
  | cons a t ih =>
    rw [List.length_cons, List.range_succ_eq_map, List.map_cons, List.map_map]
    have h2 : ((fun i => (a :: t).getD i d) ∘ Nat.succ) = fun i => t.getD i d := by
      funext i
      simp [Function.comp, List.getD_cons_succ]
    rw [h2, ih]
    rfl

theorem trueIdxs_gather (p : α → Bool) (G : α → β → γ) (d₁ : α) (d₂ : β) :
    ∀ (tc : List α) (xs : List β), xs.length = tc.length →
    (trueIdxs (tc.map p)).map (fun i => G (tc.getD i d₁) (xs.getD i d₂)) =
      ((tc.zip xs).filter (fun q => p q.1)).map (fun q => G q.1 q.2) := by
  intro tc
  induction tc with
  | nil => intro xs h; simp [trueIdxs]
  | cons a l ih =>
    intro xs h
    cases xs with
    | nil => simp at h
    | cons y ys =>
      have hlen : ys.length = l.length := by simpa using h
      have hshift : ∀ (t : List ℕ),
          (t.map (· + 1)).map (fun i => G ((a :: l).getD i d₁) ((y :: ys).getD i d₂)) =
            t.map (fun i => G (l.getD i d₁) (ys.getD i d₂)) := by
        intro t
        rw [List.map_map]
        apply List.map_congr_left
        intro i _
        simp [Function.comp, List.getD_cons_succ]
      simp only [List.map_cons, trueIdxs, List.zip_cons_cons]
      by_cases hp : p a
      · rw [if_pos hp, List.map_cons, hshift, ih ys hlen,
          List.filter_cons_of_pos (by simpa using hp), List.map_cons]
        rfl
      · rw [if_neg hp, hshift, ih ys hlen,
          List.filter_cons_of_neg (by simpa using hp)]

theorem randPrefix_mem {f : ℕ → List ℕ} (hf : IsRandPerm f) (cand : List ℕ)
    (n : ℤ) :
    ∀ i ∈ (pySliceTo n (f cand.length)).map (fun j => cand.getD j 0), i ∈ cand := by
  intro i hi
  obtain ⟨j, hj, rfl⟩ := List.mem_map.mp hi
  have hj1 : j ∈ f cand.length := (pySliceTo_sublist _ _).mem hj
  have hj2 : j ∈ List.range cand.length := (hf cand.length).mem_iff.mp hj1
  have hlt : j < cand.length := List.mem_range.mp hj2
  rw [List.getD_eq_get _ _ hlt]
  exact List.get_mem _ _ _

theorem randPrefix_nodup {f : ℕ → List ℕ} (hf : IsRandPerm f) (cand : List ℕ)
    (hc : cand.Nodup) (n : ℤ) :
    ((pySliceTo n (f cand.length)).map (fun j => cand.getD j 0)).Nodup := by
  have hnd : (f cand.length).Nodup :=
    ((hf cand.length).nodup_iff).mpr (List.nodup_range _)
  have hnd2 : (pySliceTo n (f cand.length)).Nodup :=
    hnd.sublist (pySliceTo_sublist _ _)
  apply List.Nodup.map_on _ hnd2
  intro x hx y hy hxy
  have hxlt : x < cand.length := by
    have := (hf cand.length).mem_iff.mp ((pySliceTo_sublist _ _).mem hx)
    exact List.mem_range.mp this
  have hylt : y < cand.length := by
    have := (hf cand.length).mem_iff.mp ((pySliceTo_sublist _ _).mem hy)
    exact List.mem_range.mp this
  rw [List.getD_eq_get _ _ hxlt, List.getD_eq_get _ _ hylt] at hxy
  have := (List.Nodup.get_inj_iff hc).mp hxy
  exact congrArg Fin.val this

theorem randPrefix_length {f : ℕ → List ℕ} (hf : IsRandPerm f) (cand : List ℕ)
    {n : ℤ} (hn : 0 ≤ n) :
    ((pySliceTo n (f cand.length)).map (fun j => cand.getD j 0)).length
      = min n.toNat cand.length := by
  rw [List.length_map, pySliceTo_length hn, (hf cand.length).length_eq,
    List.length_range]

theorem randPrefix_perm_all {f : ℕ → List ℕ} (hf : IsRandPerm f) (cand : List ℕ)
    {n : ℤ} (hn : cand.length ≤ n.toNat) :
    ((pySliceTo n (f cand.length)).map (fun j => cand.getD j 0)).Perm cand := by
  have hlen : (f cand.length).length = cand.length :=
    (hf cand.length).length_eq.trans (List.length_range _)
  rcases le_or_lt 0 n with h0 | h0
  · rw [pySliceTo_of_nonneg h0, List.take_of_length_le (by rw [hlen]; exact hn)]
    have hperm : ((f cand.length).map (fun j => cand.getD j 0)).Perm
        ((List.range cand.length).map (fun j => cand.getD j 0)) :=
      (hf cand.length).map _
    rw [map_getD_range] at hperm
    exact hperm
  · have hn0 : n.toNat = 0 := Int.toNat_of_nonpos (le_of_lt h0)
    have hcand : cand = [] := List.length_eq_zero.mp (Nat.le_zero.mp (hn0 ▸ hn))
    subst hcand
    have hf0 : f 0 = [] := by
      have := hf 0
      simpa using this.eq_nil
    simp [pySliceTo, hf0]

theorem pySliceTo_length_le {n : ℤ} (h : 0 ≤ n) (l : List α) :
    (pySliceTo n l).length ≤ n.toNat := by
  rw [pySliceTo_length h]
  exact min_le_left _ _

theorem zip_self_map {l : List α} {f : α → β} {g : α × β → γ} :
    (l.zip (l.map f)).map g = l.map (fun a => g (a, f a)) := by
  induction l with
  | nil => rfl
  | cons a t ih => simp only [List.map_cons, List.zip_cons_cons, ih]

theorem posIx_select (tc : List ℤ) (xs : List β) (d : β) (h : xs.length = tc.length) :
    (trueIdxs (tc.map (fun c => decide (0 < c)))).map (fun i => xs.getD i d)
      = claimPosSelect tc xs := by
  have key := trueIdxs_gather (fun c => decide (0 < c)) (fun _ x => x) 0 d tc xs h
  simpa [claimPosSelect] using key

theorem posIx_class_gather (tc : List ℤ) (preds : List (List β)) (d : β)
    (h : preds.length = tc.length) :
    ((trueIdxs (tc.map (fun c => decide (0 < c)))).zip
        ((trueIdxs (tc.map (fun c => decide (0 < c)))).map
          (fun i => (tc.getD i 0).toNat))).map
        (fun ic => (preds.getD ic.1 []).getD ic.2 d)
      = claimClassGather tc preds d := by
  rw [zip_self_map]
  have key := trueIdxs_gather (fun c => decide (0 < c))
      (fun c r => r.getD c.toNat d) 0 [] tc preds h
  simpa [claimClassGather] using key

/-- C6: in `mrcnn_bbox` and `mrcnn_mask`, only ROIs with target class id `> 0`
contribute, and for each such ROI the predicted delta / predicted mask handed
to the loss primitive is the one in the class slot indexed by that ROI's own
assigned class id, compared against that ROI's target delta / target mask. -/
theorem c6_head_class_slot_gather
    (sl1 : List (List ℚ) → List (List ℚ) → ℚ)
    (bce : List SoftMask → List SoftMask → ℚ)
    (targetBbox : List (List (List ℚ))) (targetClassIds : List (List ℤ))
    (predBbox : List (List (List (List ℚ))))
    (targetMasks : List (List SoftMask)) (predMasks : List (List (List SoftMask)))
    (htb : (squash targetBbox).length = (squash targetClassIds).length)
    (hpb : (squash predBbox).length = (squash targetClassIds).length)
    (htm : (squash targetMasks).length = (squash targetClassIds).length)
    (hpm : (squash predMasks).length = (squash targetClassIds).length)
    (hne : (squash targetClassIds).length ≠ 0) :
    mrcnnBbox sl1 targetBbox targetClassIds predBbox
        = sl1 (claimClassGather (squash targetClassIds) (squash predBbox) [])
            (claimPosSelect (squash targetClassIds) (squash targetBbox))
      ∧ mrcnnMask bce targetMasks targetClassIds predMasks
        = bce (claimClassGather (squash targetClassIds) (squash predMasks) [])
            (claimPosSelect (squash targetClassIds) (squash targetMasks)) := by
  constructor
  · simp only [mrcnnBbox, if_pos hne]
    rw [posIx_class_gather _ _ _ hpb, posIx_select _ _ _ htb]
  · simp only [mrcnnMask, if_pos hne]
    rw [posIx_class_gather _ _ _ hpm, posIx_select _ _ _ htm]

/-- C6 witness: the theorem applied at a concrete two-roi batch with three
classes; the roi of class 2 selects slot 2 of its per-class predictions. -/
theorem c6_head_class_slot_gather_witness :
    mrcnnBbox (fun a b => (a.length : ℚ) + b.length) [[[1, 1, 1, 1], [2, 2, 2, 2]]]
        [[0, 2]] [[[[9, 9, 9, 9], [8, 8, 8, 8], [7, 7, 7, 7]],
          [[6, 6, 6, 6], [5, 5, 5, 5], [4, 4, 4, 4]]]]
        = (fun (a b : List (List ℚ)) => (a.length : ℚ) + b.length)
            (claimClassGather (squash [[0, 2]]) (squash [[[[9, 9, 9, 9], [8, 8, 8, 8],
              [7, 7, 7, 7]], [[6, 6, 6, 6], [5, 5, 5, 5], [4, 4, 4, 4]]]]) [])
            (claimPosSelect (squash [[0, 2]]) (squash [[[1, 1, 1, 1], [2, 2, 2, 2]]]))
      ∧ mrcnnMask (fun a b => (a.length : ℚ) * b.length) [[[[0, 0]], [[1, 1]]]]
        [[0, 2]] [[[[[9, 9]], [[8, 8]], [[7, 7]]], [[[6, 6]], [[5, 5]], [[4, 4]]]]]
        = (fun (a b : List SoftMask) => (a.length : ℚ) * b.length)
            (claimClassGather (squash [[0, 2]])
              (squash [[[[[9, 9]], [[8, 8]], [[7, 7]]], [[[6, 6]], [[5, 5]], [[4, 4]]]]]) [])
            (claimPosSelect (squash [[0, 2]]) (squash [[[[0, 0]], [[1, 1]]]])) :=
  c6_head_class_slot_gather _ _ _ _ _ _ _ (by rfl) (by rfl) (by rfl) (by rfl)
    (by decide)

/-- C7 (amended): the detached-zero guard of all three head losses is the
emptiness of the flattened target class-id tensor; when it is empty, each
returns `0` for every loss primitive, i.e. without invoking it. -/
theorem c7_empty_flat_guard
    (ce : List (List ℚ) → List ℤ → ℚ)
    (sl1 : List (List ℚ) → List (List ℚ) → ℚ)
    (bce : List SoftMask → List SoftMask → ℚ)
    (targetClassIds : List (List ℤ))
    (predClassLogits : List (List (List ℚ)))
    (targetBbox : List (List (List ℚ))) (predBbox : List (List (List (List ℚ))))
    (targetMasks : List (List SoftMask)) (predMasks : List (List (List SoftMask)))
    (h : squash targetClassIds = []) :
    mrcnnClass ce targetClassIds predClassLogits = 0
      ∧ mrcnnBbox sl1 targetBbox targetClassIds predBbox = 0
      ∧ mrcnnMask bce targetMasks targetClassIds predMasks = 0 := by
  refine ⟨?_, ?_, ?_⟩ <;> simp [mrcnnClass, mrcnnBbox, mrcnnMask, h]

/-- C7 witness: a batch of one image with zero rois; all three head losses are
`0` even for a primitive that returns `7` on every input. -/
theorem c7_empty_flat_guard_witness :
    mrcnnClass (fun _ _ => (7:ℚ)) [[]] [[]] = 0
      ∧ mrcnnBbox (fun _ _ => (7:ℚ)) [[]] [[]] [[]] = 0
      ∧ mrcnnMask (fun _ _ => (7:ℚ)) [[]] [[]] [[]] = 0 :=
  c7_empty_flat_guard _ _ _ [[]] [[]] [[]] [[]] [[]] [[]] (by rfl)

/-- C7 counterexample: a nonempty flattened class-id tensor all of whose
entries are `0` (no positive ROI) does not short-circuit `mrcnn_bbox`: the
smooth-L1 primitive is invoked on the empty selection (here a primitive
returning `7` shows the result is neither zero nor primitive-independent). -/
theorem c7_counterexample :
    mrcnnBbox (fun _ _ => (7:ℚ)) [[[0, 0, 0, 0]]] [[0]] [[[[1, 1, 1, 1]]]] = 7
      ∧ (7:ℚ) ≠ 0 := by
  constructor
  · rfl
  · norm_num

/-- C8 (code bug): with the shapes documented in the `rpn_class` docstring
(`rpn_match : [batch, anchors, 1]`, `rpn_class_logits : [batch, anchors, 2]`),
the indexing after `squash` gathers the scalar class-0 logit of each selected
anchor — here `2` and `3`, dropping `5` and `7` — instead of the full 2-logit
rows `[2,5]`, `[3,7]` the spec's selection (second conjunct) produces, and the
resulting 1-D tensor is not a valid `F.cross_entropy` input. -/
theorem c8_rpn_class_scalar_gather :
    rpnClassGather [[[1], [-1]]] [[[2, 5], [3, 7]]] = ([2, 3], [1, 0])
      ∧ rpnClassClaimSelect [[[1], [-1]]] [[[2, 5], [3, 7]]]
          = ([[2, 5], [3, 7]], [1, 0]) := by
  constructor <;> rfl

/-- C2 (code bug): with the shapes documented in the `rpn_bbox` docstring,
`squash` is applied before `item_counts` is computed, so the trim loop indexes
the flattened target rows by flattened anchor position: for one image with two
anchors and a one-row target the loop hits row index 1 of a 1-row tensor and
raises (`none`), while the per-image trim-and-concatenate described by the
spec (second conjunct) pairs the predicted row `[5,6,7,8]` of the single
positive anchor with the target row `[1,2,3,4]`. -/
theorem c2_rpn_bbox_flatten_bug :
    rpnBboxPair [[[1, 2, 3, 4]]] [[[1], [0]]] [[[5, 6, 7, 8], [9, 9, 9, 9]]] = none
      ∧ rpnBboxClaimPair [[[1, 2, 3, 4]]] [[[1], [0]]] [[[5, 6, 7, 8], [9, 9, 9, 9]]]
          = ([[5, 6, 7, 8]], [[1, 2, 3, 4]]) := by
  constructor
  · decide
  · rfl

theorem samplePositives_lengths (cropResize : Mask → Box → SoftMask)
    (rlog : ℚ → ℚ) (permPos : ℕ → List ℕ) (cfg : Config) (proposals : List Box)
    (prep : Prep) (riMax : List ℚ) :
    ((samplePositives cropResize rlog permPos cfg proposals prep riMax).classIds.length
        = (samplePositives cropResize rlog permPos cfg proposals prep riMax).rois.length)
    ∧ ((samplePositives cropResize rlog permPos cfg proposals prep riMax).deltas.length
        = (samplePositives cropResize rlog permPos cfg proposals prep riMax).rois.length)
    ∧ ((samplePositives cropResize rlog permPos cfg proposals prep riMax).masks.length
        = (samplePositives cropResize rlog permPos cfg proposals prep riMax).rois.length) := by
  unfold samplePositives
  by_cases h : (posCandidatesOf riMax).length ≠ 0
  · simp only [if_pos h]
    refine ⟨by simp, ?_, ?_⟩
    · simp [boxRefinement]
    · cases hm : cfg.useMiniMask <;> simp [miniMaskBoxes, hm]
  · simp only [if_neg h]
    exact ⟨rfl, rfl, rfl⟩

theorem samplePositives_rois_le (cropResize : Mask → Box → SoftMask)
    (rlog : ℚ → ℚ) (permPos : ℕ → List ℕ) (cfg : Config) (proposals : List Box)
    (prep : Prep) (riMax : List ℚ)
    (hT : 0 ≤ cfg.trainRoisPerImage) (hr : 0 < cfg.roiPositiveRatio) :
    ((samplePositives cropResize rlog permPos cfg proposals prep riMax).rois.length : ℤ)
      ≤ truncQ ((cfg.trainRoisPerImage : ℚ) * cfg.roiPositiveRatio) := by
  have hnn : (0:ℚ) ≤ (cfg.trainRoisPerImage : ℚ) * cfg.roiPositiveRatio :=
    mul_nonneg (by exact_mod_cast hT) hr.le
  have htge : 0 ≤ truncQ ((cfg.trainRoisPerImage : ℚ) * cfg.roiPositiveRatio) :=
    truncQ_nonneg hnn
  unfold samplePositives
  by_cases h : (posCandidatesOf riMax).length ≠ 0
  · simp only [if_pos h]
    have h1 : (positiveIndicesOf permPos cfg riMax).length
        ≤ (truncQ ((cfg.trainRoisPerImage : ℚ) * cfg.roiPositiveRatio)).toNat := by
      unfold positiveIndicesOf
      rw [List.length_map]
      exact pySliceTo_length_le htge _
    simp only [List.length_map]
    omega
  · simp only [if_neg h]
    simpa using htge

/-- C1: per image, `class_ids`, `deltas` and the mask targets all have length
`positive_count` (the length of the positive roi block), that count is at most
`round(TRAIN_ROIS_PER_IMAGE * ROI_POSITIVE_RATIO)`, the output `rois` is the
positive rois followed by the negative rois, and its length is
`positive_count + negative_count`; the per-positive outputs are not padded to
the length of `rois`. -/
theorem c1_sampler_output_shapes
    (cropResize : Mask → Box → SoftMask) (rlog : ℚ → ℚ)
    (permPos permNeg : ℕ → List ℕ) (cfg : Config)
    (proposals : List Box) (gtClassIds : List ℤ) (gtBoxes0 : List Box)
    (gtMasks0 : List Mask) (riMax : List ℚ)
    (hT : 0 ≤ cfg.trainRoisPerImage)
    (hr : 0 < cfg.roiPositiveRatio)
    (hri : rowMaxes (headPrep cfg proposals gtClassIds gtBoxes0 gtMasks0).overlaps
      = some riMax) :
    let prep := headPrep cfg proposals gtClassIds gtBoxes0 gtMasks0
    let pos := samplePositives cropResize rlog permPos cfg proposals prep riMax
    let negRois := (negativeIndicesOf permNeg cfg riMax prep.noCrowd
        pos.rois.length).map (fun i => proposals.getD i box0)
    buildHeadTargets cropResize rlog permPos permNeg cfg proposals gtClassIds
          gtBoxes0 gtMasks0
        = some ⟨pos.rois ++ negRois, pos.classIds, pos.deltas, pos.masks⟩
      ∧ pos.classIds.length = pos.rois.length
      ∧ pos.deltas.length = pos.rois.length
      ∧ pos.masks.length = pos.rois.length
      ∧ (pos.rois.length : ℤ)
          ≤ pyRound ((cfg.trainRoisPerImage : ℚ) * cfg.roiPositiveRatio)
      ∧ (pos.rois ++ negRois).length = pos.rois.length + negRois.length := by
  intro prep pos negRois
  obtain ⟨hc, hd, hm⟩ :=
    samplePositives_lengths cropResize rlog permPos cfg proposals prep riMax
  have hle := samplePositives_rois_le cropResize rlog permPos cfg proposals prep
    riMax hT hr
  have hnn : (0:ℚ) ≤ (cfg.trainRoisPerImage : ℚ) * cfg.roiPositiveRatio :=
    mul_nonneg (by exact_mod_cast hT) hr.le
  refine ⟨?_, hc, hd, hm, ?_, List.length_append _ _⟩
  · simp only [buildHeadTargets, hri, Option.bind_some]
    rfl
  · calc (pos.rois.length : ℤ)
        ≤ truncQ ((cfg.trainRoisPerImage : ℚ) * cfg.roiPositiveRatio) := hle
      _ = ⌊(cfg.trainRoisPerImage : ℚ) * cfg.roiPositiveRatio⌋ :=
        truncQ_of_nonneg hnn
      _ ≤ pyRound ((cfg.trainRoisPerImage : ℚ) * cfg.roiPositiveRatio) :=
        floor_le_pyRound _

/-- The identity permutation oracle, one concrete valid `torch.randperm` draw. -/
def idPerm : ℕ → List ℕ := fun n => List.range n

theorem idPerm_valid : IsRandPerm idPerm := fun _ => List.Perm.refl _

/-- A constant crop-and-resize stub used to instantiate witnesses. -/
def cr1 : Mask → Box → SoftMask := fun _ _ => [[1]]

/-- A zero logarithm stub used to instantiate witnesses. -/
def rl0 : ℚ → ℚ := fun _ => 0

/-- The unit box, used as a concrete proposal and ground-truth box. -/
def boxU : Box := ⟨0, 0, 1, 1⟩

/-- A concrete configuration: image 1×1, 4 rois per image, positive ratio 1/2,
no mini-masks, unit standard deviations. -/
def cfgA : Config := ⟨(1, 1), 4, 1/2, false, ⟨1, 1, 1, 1⟩⟩

/-- C1 witness: the shape theorem applied to one proposal that exactly covers
the single class-1 ground-truth box. -/
theorem c1_sampler_output_shapes_witness :
    (let prep := headPrep cfgA [boxU] [1] [boxU] [[[true]]]
     let pos := samplePositives cr1 rl0 idPerm cfgA [boxU] prep [1]
     let negRois := (negativeIndicesOf idPerm cfgA [1] prep.noCrowd
        pos.rois.length).map (fun i => [boxU].getD i box0)
     buildHeadTargets cr1 rl0 idPerm idPerm cfgA [boxU] [1] [boxU] [[[true]]]
         = some ⟨pos.rois ++ negRois, pos.classIds, pos.deltas, pos.masks⟩
       ∧ pos.classIds.length = pos.rois.length
       ∧ pos.deltas.length = pos.rois.length
       ∧ pos.masks.length = pos.rois.length
       ∧ (pos.rois.length : ℤ)
           ≤ pyRound ((cfgA.trainRoisPerImage : ℚ) * cfgA.roiPositiveRatio)
       ∧ (pos.rois ++ negRois).length = pos.rois.length + negRois.length) :=
  c1_sampler_output_shapes cr1 rl0 idPerm idPerm cfgA [boxU] [1] [boxU] [[[true]]]
    [1] (by norm_num [cfgA]) (by norm_num [cfgA])
    (by norm_num [headPrep, normBoxes, trueIdxs, iou, rowMaxes, rowMax, cfgA, boxU])

theorem negativeIndicesOf_le (permNeg : ℕ → List ℕ) (cfg : Config)
    (riMax : List ℚ) (noCrowd : List Bool) (p : ℕ)
    (hr : 0 < cfg.roiPositiveRatio) (hr1 : cfg.roiPositiveRatio ≤ 1) :
    ((negativeIndicesOf permNeg cfg riMax noCrowd p).length : ℤ)
      ≤ truncQ (1 / cfg.roiPositiveRatio * (p:ℚ) - (p:ℚ)) := by
  have h1 : (1:ℚ) ≤ 1 / cfg.roiPositiveRatio := one_le_one_div hr hr1
  have hnn : (0:ℚ) ≤ 1 / cfg.roiPositiveRatio * (p:ℚ) - (p:ℚ) := by
    have h2 : (1:ℚ) * (p:ℚ) ≤ 1 / cfg.roiPositiveRatio * (p:ℚ) :=
      mul_le_mul_of_nonneg_right h1 (by positivity)
    linarith
  have ht0 : 0 ≤ truncQ (1 / cfg.roiPositiveRatio * (p:ℚ) - (p:ℚ)) :=
    truncQ_nonneg hnn
  simp only [negativeIndicesOf]
  split_ifs with h
  · rw [List.length_map]
    have hb := pySliceTo_length_le ht0
      (permNeg (negCandidatesOf riMax noCrowd).length)
    omega
  · simpa using ht0

theorem posneg_bound {T : ℤ} {ρ : ℚ} (hT : 0 ≤ T) (hρ : 0 < ρ) (hρ1 : ρ ≤ 1)
    {p k : ℕ}
    (hp : (p:ℤ) ≤ truncQ ((T:ℚ) * ρ))
    (hk : (k:ℤ) ≤ truncQ (1/ρ * (p:ℚ) - (p:ℚ))) :
    (p:ℤ) + k ≤ T := by
  rw [truncQ_of_nonneg (mul_nonneg (by exact_mod_cast hT) hρ.le)] at hp
  have h1 : (1:ℚ) ≤ 1 / ρ := one_le_one_div hρ hρ1
  have hnn : (0:ℚ) ≤ 1 / ρ * (p:ℚ) - (p:ℚ) := by
    have h2 : (1:ℚ) * (p:ℚ) ≤ 1 / ρ * (p:ℚ) :=
      mul_le_mul_of_nonneg_right h1 (by positivity)
    linarith
  rw [truncQ_of_nonneg hnn] at hk
  have hpq : ((p:ℤ):ℚ) ≤ (T:ℚ) * ρ := Int.le_floor.mp hp
  have h2 : (p:ℚ) / ρ ≤ (T:ℚ) := by
    rw [div_le_iff hρ]
    exact_mod_cast hpq
  have h3 : 1/ρ * (p:ℚ) - (p:ℚ) = (p:ℚ) / ρ - ((p:ℤ):ℚ) := by
    push_cast
    ring
  rw [h3, Int.floor_sub_int] at hk
  have h4 : ⌊(p:ℚ) / ρ⌋ ≤ T := by
    have h5 := Int.floor_le_floor h2
    simpa [Int.floor_intCast] using h5
  omega

/-- C10: for every per-image input with `TRAIN_ROIS_PER_IMAGE ≥ 0` and
`ROI_POSITIVE_RATIO ∈ (0, 1]`, and for every random draw (the permutation
oracles are arbitrary), the total number of output rois never exceeds
`TRAIN_ROIS_PER_IMAGE`. -/
theorem c10_total_rois_bounded
    (cropResize : Mask → Box → SoftMask) (rlog : ℚ → ℚ)
    (permPos permNeg : ℕ → List ℕ) (cfg : Config)
    (proposals : List Box) (gtClassIds : List ℤ) (gtBoxes0 : List Box)
    (gtMasks0 : List Mask) (out : HeadTargets)
    (hT : 0 ≤ cfg.trainRoisPerImage)
    (hr : 0 < cfg.roiPositiveRatio) (hr1 : cfg.roiPositiveRatio ≤ 1)
    (hout : buildHeadTargets cropResize rlog permPos permNeg cfg proposals
      gtClassIds gtBoxes0 gtMasks0 = some out) :
    (out.rois.length : ℤ) ≤ cfg.trainRoisPerImage := by
  simp only [buildHeadTargets] at hout
  cases hm : rowMaxes (headPrep cfg proposals gtClassIds gtBoxes0 gtMasks0).overlaps with
  | none =>
    rw [hm] at hout
    exact absurd hout (by simp [Option.bind])
  | some riMax =>
    rw [hm] at hout
    simp only [Option.bind_eq_bind, Option.some_bind, Option.some_inj] at hout
    subst hout
    simp only [List.length_append, List.length_map]
    have hp := samplePositives_rois_le cropResize rlog permPos cfg proposals
      (headPrep cfg proposals gtClassIds gtBoxes0 gtMasks0) riMax hT hr
    have hk := negativeIndicesOf_le permNeg cfg riMax
      (headPrep cfg proposals gtClassIds gtBoxes0 gtMasks0).noCrowd
      (samplePositives cropResize rlog permPos cfg proposals
        (headPrep cfg proposals gtClassIds gtBoxes0 gtMasks0) riMax).rois.length
      hr hr1
    have := posneg_bound hT hr hr1 hp hk
    push_cast
    push_cast at this
    linarith

/-- C10 witness: two proposals, one positive against the single class-1 ground
truth; the output roi count is within `TRAIN_ROIS_PER_IMAGE = 4`. -/
theorem c10_total_rois_bounded_witness :
    ((buildHeadTargets cr1 rl0 idPerm idPerm cfgA [boxU, ⟨0, 0, 0, 0⟩] [1] [boxU]
        [[[true]]]).getD ⟨[], [], [], []⟩).rois.length ≤ (4:ℤ) := by
  have h := c10_total_rois_bounded cr1 rl0 idPerm idPerm cfgA
    [boxU, ⟨0, 0, 0, 0⟩] [1] [boxU] [[[true]]]
    ((buildHeadTargets cr1 rl0 idPerm idPerm cfgA [boxU, ⟨0, 0, 0, 0⟩] [1] [boxU]
        [[[true]]]).getD ⟨[], [], [], []⟩)
    (by norm_num [cfgA]) (by norm_num [cfgA]) (by norm_num [cfgA]) ?_
  · simpa [cfgA] using h
  · cases hb : buildHeadTargets cr1 rl0 idPerm idPerm cfgA
      [boxU, ⟨0, 0, 0, 0⟩] [1] [boxU] [[[true]]] with
    | none =>
      exfalso
      revert hb
      norm_num [buildHeadTargets, headPrep, normBoxes, trueIdxs, iou, rowMaxes,
        rowMax, cfgA, boxU]
      exact Option.some_ne_none _
    | some out => simp [hb]

theorem posCandidatesOf_nodup (riMax : List ℚ) : (posCandidatesOf riMax).Nodup :=
  trueIdxs_nodup _

theorem argmaxIdx_singleton (x : ℚ) : argmaxIdx [x] = 0 := by
  simp [argmaxIdx, rowMax]

/-- C3 (amended): for every valid random draw, the kept positive indices form
a without-replacement subsample of the candidate set (`max-IoU ≥ 0.5`) of size
exactly `min (int(TRAIN_ROIS_PER_IMAGE * ROI_POSITIVE_RATIO)) (#candidates)` —
python `int` truncation, not `round` — and when no more candidates than the
truncated target exist, the kept list is a permutation of the candidates (all
are kept). -/
theorem c3_positive_subsample (permPos : ℕ → List ℕ) (cfg : Config)
    (riMax : List ℚ) (hperm : IsRandPerm permPos)
    (hT : 0 ≤ cfg.trainRoisPerImage) (hr : 0 < cfg.roiPositiveRatio) :
    let cand := posCandidatesOf riMax
    let tgt := truncQ ((cfg.trainRoisPerImage : ℚ) * cfg.roiPositiveRatio)
    let kept := positiveIndicesOf permPos cfg riMax
    kept.length = min tgt.toNat cand.length
      ∧ kept.Nodup
      ∧ (∀ i ∈ kept, i ∈ cand)
      ∧ (cand.length ≤ tgt.toNat → kept.Perm cand) := by
  intro cand tgt kept
  have h0 : 0 ≤ tgt :=
    truncQ_nonneg (mul_nonneg (by exact_mod_cast hT) hr.le)
  exact ⟨randPrefix_length hperm cand h0,
    randPrefix_nodup hperm cand (posCandidatesOf_nodup riMax) tgt,
    randPrefix_mem hperm cand tgt,
    fun hle => randPrefix_perm_all hperm cand hle⟩

/-- C3 witness: `TRAIN_ROIS_PER_IMAGE = 4`, `ROI_POSITIVE_RATIO = 1/2`, three
candidate positives out of four proposals; exactly `int(4 * 1/2) = 2` kept. -/
theorem c3_positive_subsample_witness :
    (let cand := posCandidatesOf [1, 0, 1, 1]
     let tgt := truncQ ((cfgA.trainRoisPerImage : ℚ) * cfgA.roiPositiveRatio)
     let kept := positiveIndicesOf idPerm cfgA [1, 0, 1, 1]
     kept.length = min tgt.toNat cand.length
       ∧ kept.Nodup
       ∧ (∀ i ∈ kept, i ∈ cand)
       ∧ (cand.length ≤ tgt.toNat → kept.Perm cand)) :=
  c3_positive_subsample idPerm cfgA [1, 0, 1, 1] idPerm_valid
    (by norm_num [cfgA]) (by norm_num [cfgA])

/-- The configuration of the C3 counterexample: 8 rois per image, positive
ratio 1/5, so `TRAIN_ROIS_PER_IMAGE * ROI_POSITIVE_RATIO = 1.6`. -/
def cfgB : Config := ⟨(1, 1), 8, 1/5, false, ⟨1, 1, 1, 1⟩⟩

/-- C3 counterexample: three candidate positives (each proposal covers the
class-1 ground-truth box exactly), `round(8 * 1/5) = 2`, yet the sampler keeps
only `int(8 * 1/5) = 1` positive: `class_ids` (and the positive roi block) has
length 1, not 2. -/
theorem c3_counterexample :
    buildHeadTargets cr1 rl0 idPerm idPerm cfgB [boxU, boxU, boxU] [1] [boxU]
        [[[true]]] = some ⟨[boxU], [1], [⟨0, 0, 0, 0⟩], [[[1]]]⟩
      ∧ pyRound ((cfgB.trainRoisPerImage : ℚ) * cfgB.roiPositiveRatio) = 2
      ∧ (posCandidatesOf [1, 1, 1]).length = 3 := by
  have hprep : headPrep cfgB [boxU, boxU, boxU] [1] [boxU] [[[true]]]
      = ⟨[1], [boxU], [[[true]]], List.replicate 3 true, [[1], [1], [1]]⟩ := by
    norm_num [headPrep, normBoxes, trueIdxs, iou, cfgB, boxU]
  have htgt : truncQ ((cfgB.trainRoisPerImage : ℚ) * cfgB.roiPositiveRatio) = 1 := by
    rw [show ((cfgB.trainRoisPerImage : ℚ) * cfgB.roiPositiveRatio) = 8/5 by
      norm_num [cfgB]]
    rw [truncQ_of_nonneg (by norm_num)]
    norm_num [Int.floor_eq_iff]
  have hposIdx : positiveIndicesOf idPerm cfgB [1, 1, 1] = [0] := by
    simp only [positiveIndicesOf, htgt]
    norm_num [posCandidatesOf, trueIdxs, pySliceTo, idPerm, List.range_succ]
  have hpos : samplePositives cr1 rl0 idPerm cfgB [boxU, boxU, boxU]
      ⟨[1], [boxU], [[[true]]], List.replicate 3 true, [[1], [1], [1]]⟩ [1, 1, 1]
      = ⟨[boxU], [1], [⟨0, 0, 0, 0⟩], [[[1]]]⟩ := by
    simp only [samplePositives, hposIdx]
    norm_num [posCandidatesOf, trueIdxs, boxRefinement, divStd, miniMaskBoxes,
      roundMask, pyRound, argmaxIdx_singleton, cr1, rl0, cfgB, boxU,
      Int.floor_eq_iff]
  have hneg : negativeIndicesOf idPerm cfgB [1, 1, 1] (List.replicate 3 true) 1
      = [] := by
    norm_num [negativeIndicesOf, negCandidatesOf, trueIdxs, List.replicate]
  refine ⟨?_, ?_, ?_⟩
  · simp only [buildHeadTargets, hprep]
    norm_num [rowMaxes, rowMax]
    simp only [hpos, hneg]
    norm_num
    exact hneg
  · rw [show ((cfgB.trainRoisPerImage : ℚ) * cfgB.roiPositiveRatio) = 8/5 by
      norm_num [cfgB]]
    norm_num [pyRound, Int.floor_eq_iff]
  · norm_num [posCandidatesOf, trueIdxs]

theorem negativeIndicesOf_eq (permNeg : ℕ → List ℕ) (cfg : Config)
    (riMax : List ℚ) (noCrowd : List Bool) (p : ℕ) :
    negativeIndicesOf permNeg cfg riMax noCrowd p
      = if (negCandidatesOf riMax noCrowd).length ≠ 0 ∧ 0 < p then
          (pySliceTo (truncQ (1 / cfg.roiPositiveRatio * (p:ℚ) - (p:ℚ)))
              (permNeg (negCandidatesOf riMax noCrowd).length)).map
            (fun j => (negCandidatesOf riMax noCrowd).getD j 0)
        else [] := rfl

/-- C4 (amended): negatives are sampled only when at least one positive was
kept, and the sampled count is
`min (int(positive_count / ROI_POSITIVE_RATIO − positive_count)) (#eligible)` —
python `int` truncation of `1/ratio * count − count`, not
`round(count/ratio) − count` — drawn without replacement from the eligible
negatives. -/
theorem c4_negative_subsample (permNeg : ℕ → List ℕ) (cfg : Config)
    (riMax : List ℚ) (noCrowd : List Bool) (p : ℕ)
    (hperm : IsRandPerm permNeg)
    (hr : 0 < cfg.roiPositiveRatio) (hr1 : cfg.roiPositiveRatio ≤ 1) :
    let cand := negCandidatesOf riMax noCrowd
    let cnt := truncQ (1 / cfg.roiPositiveRatio * (p:ℚ) - (p:ℚ))
    let kept := negativeIndicesOf permNeg cfg riMax noCrowd p
    (p = 0 → kept = [])
      ∧ (0 < p → kept.length = min cnt.toNat cand.length)
      ∧ kept.Nodup
      ∧ (∀ i ∈ kept, i ∈ cand) := by
  intro cand cnt kept
  have h1 : (1:ℚ) ≤ 1 / cfg.roiPositiveRatio := one_le_one_div hr hr1
  have hnn : (0:ℚ) ≤ 1 / cfg.roiPositiveRatio * (p:ℚ) - (p:ℚ) := by
    have h2 : (1:ℚ) * (p:ℚ) ≤ 1 / cfg.roiPositiveRatio * (p:ℚ) :=
      mul_le_mul_of_nonneg_right h1 (by positivity)
    linarith
  have h0 : 0 ≤ cnt := truncQ_nonneg hnn
  have hkeq := negativeIndicesOf_eq permNeg cfg riMax noCrowd p
  by_cases hc : cand.length ≠ 0 ∧ 0 < p
  · have hkept : kept = (pySliceTo cnt (permNeg cand.length)).map
        (fun j => cand.getD j 0) := by
      rw [show kept = negativeIndicesOf permNeg cfg riMax noCrowd p from rfl,
        hkeq, if_pos hc]
    refine ⟨fun hp0 => absurd hp0 (Nat.pos_iff_ne_zero.mp hc.2), ?_, ?_, ?_⟩
    · intro _
      rw [hkept]
      exact randPrefix_length hperm cand h0
    · rw [hkept]
      exact randPrefix_nodup hperm cand (trueIdxs_nodup _) cnt
    · rw [hkept]
      exact randPrefix_mem hperm cand cnt
  · have hkept : kept = [] := by
      rw [show kept = negativeIndicesOf permNeg cfg riMax noCrowd p from rfl,
        hkeq, if_neg hc]
    push_neg at hc
    refine ⟨fun _ => hkept, ?_, ?_, ?_⟩
    · intro hp
      have hcand : cand.length = 0 := by
        by_contra hne
        exact absurd hp (Nat.not_lt.mpr (hc hne))
      rw [hkept, hcand]
      simp
    · rw [hkept]; exact List.nodup_nil
    · rw [hkept]; intro i hi; simp at hi

/-- C4 witness: ratio 1/2, one kept positive, two eligible negatives; exactly
`int(1/(1/2) − 1) = 1` negative sampled. -/
theorem c4_negative_subsample_witness :
    (let cand := negCandidatesOf [0, 0] [true, true]
     let cnt := truncQ (1 / cfgA.roiPositiveRatio * ((1:ℕ):ℚ) - ((1:ℕ):ℚ))
     let kept := negativeIndicesOf idPerm cfgA [0, 0] [true, true] 1
     ((1:ℕ) = 0 → kept = [])
       ∧ (0 < (1:ℕ) → kept.length = min cnt.toNat cand.length)
       ∧ kept.Nodup
       ∧ (∀ i ∈ kept, i ∈ cand)) :=
  c4_negative_subsample idPerm cfgA [0, 0] [true, true] 1 idPerm_valid
    (by norm_num [cfgA]) (by norm_num [cfgA])

/-- The configuration of the C4 counterexample: 2 rois per image, positive
ratio 5/8, so `positive_count / ratio = 1.6` for one kept positive. -/
def cfgC : Config := ⟨(1, 1), 2, 5/8, false, ⟨1, 1, 1, 1⟩⟩

/-- C4 counterexample: one kept positive and one eligible negative;
`round(1 / (5/8)) − 1 = 1`, so the claim requires one sampled negative, but
the code samples `int(1/(5/8) − 1) = int(0.6) = 0`: the output rois consist of
the positive only. -/
theorem c4_counterexample :
    buildHeadTargets cr1 rl0 idPerm idPerm cfgC [boxU, box0] [1] [boxU]
        [[[true]]] = some ⟨[boxU], [1], [⟨0, 0, 0, 0⟩], [[[1]]]⟩
      ∧ pyRound (1 / ((5:ℚ)/8)) - 1 = 1
      ∧ (negCandidatesOf [1, 0] [true, true]).length = 1 := by
  have hprep : headPrep cfgC [boxU, box0] [1] [boxU] [[[true]]]
      = ⟨[1], [boxU], [[[true]]], List.replicate 2 true, [[1], [0]]⟩ := by
    norm_num [headPrep, normBoxes, trueIdxs, iou, cfgC, boxU, box0]
  have htgt : truncQ ((cfgC.trainRoisPerImage : ℚ) * cfgC.roiPositiveRatio) = 1 := by
    rw [show ((cfgC.trainRoisPerImage : ℚ) * cfgC.roiPositiveRatio) = 5/4 by
      norm_num [cfgC]]
    rw [truncQ_of_nonneg (by norm_num)]
    norm_num [Int.floor_eq_iff]
  have hposIdx : positiveIndicesOf idPerm cfgC [1, 0] = [0] := by
    simp only [positiveIndicesOf, htgt]
    norm_num [posCandidatesOf, trueIdxs, pySliceTo, idPerm, List.range_succ]
  have hpos : samplePositives cr1 rl0 idPerm cfgC [boxU, box0]
      ⟨[1], [boxU], [[[true]]], List.replicate 2 true, [[1], [0]]⟩ [1, 0]
      = ⟨[boxU], [1], [⟨0, 0, 0, 0⟩], [[[1]]]⟩ := by
    simp only [samplePositives, hposIdx]
    norm_num [posCandidatesOf, trueIdxs, boxRefinement, divStd, miniMaskBoxes,
      roundMask, pyRound, argmaxIdx_singleton, cr1, rl0, cfgC, boxU,
      Int.floor_eq_iff]
  have hcnt : truncQ (1 / cfgC.roiPositiveRatio * ((1:ℕ):ℚ) - ((1:ℕ):ℚ)) = 0 := by
    rw [show (1 / cfgC.roiPositiveRatio * ((1:ℕ):ℚ) - ((1:ℕ):ℚ)) = 3/5 by
      norm_num [cfgC]]
    rw [truncQ_of_nonneg (by norm_num)]
    norm_num [Int.floor_eq_iff]
  have hneg : negativeIndicesOf idPerm cfgC [1, 0] (List.replicate 2 true) 1
      = [] := by
    rw [negativeIndicesOf_eq, if_pos (by norm_num [negCandidatesOf, trueIdxs])]
    rw [hcnt]
    norm_num [pySliceTo]
  refine ⟨?_, ?_, ?_⟩
  · simp only [buildHeadTargets, hprep]
    norm_num [rowMaxes, rowMax]
    simp only [hpos, hneg]
    norm_num
    exact hneg
  · rw [show ((1:ℚ) / ((5:ℚ)/8)) = 8/5 by norm_num]
    norm_num [pyRound, Int.floor_eq_iff]
  · norm_num [negCandidatesOf, trueIdxs]

theorem trueIdxs_eq_nil_iff : ∀ (bs : List Bool),
    trueIdxs bs = [] ↔ ∀ b ∈ bs, b = false := by
  intro bs
  induction bs with
  | nil => simp [trueIdxs]
  | cons b l ih =>
    cases b with
    | true => simp [trueIdxs]
    | false => simp [trueIdxs, ih]

theorem headPrep_crowd_gtIds_pos (cfg : Config) (proposals : List Box)
    (gtClassIds : List ℤ) (gtBoxes0 : List Box) (gtMasks0 : List Mask)
    (hcrowd : (trueIdxs (gtClassIds.map (fun c => decide (c < 0)))).length ≠ 0) :
    ∀ c ∈ (headPrep cfg proposals gtClassIds gtBoxes0 gtMasks0).gtIds, 0 < c := by
  intro c hc
  simp only [headPrep, if_pos hcrowd] at hc
  obtain ⟨i, hi, rfl⟩ := List.mem_map.mp hc
  obtain ⟨hlen, hget⟩ := trueIdxs_mem.mp hi
  rw [List.getD_eq_getElem _ _ hlen] at hget
  rw [List.getElem_map] at hget
  have hlt : i < gtClassIds.length := by simpa using hlen
  have hpos := of_decide_eq_true hget
  rwa [List.getD_eq_getElem _ _ hlt]

theorem headPrep_crowd_fields (cfg : Config) (proposals : List Box)
    (gtClassIds : List ℤ) (gtBoxes0 : List Box) (gtMasks0 : List Mask)
    (hcrowd : (trueIdxs (gtClassIds.map (fun c => decide (c < 0)))).length ≠ 0) :
    (headPrep cfg proposals gtClassIds gtBoxes0 gtMasks0).gtIds.length
        = (headPrep cfg proposals gtClassIds gtBoxes0 gtMasks0).gtBoxes.length
      ∧ (headPrep cfg proposals gtClassIds gtBoxes0 gtMasks0).overlaps
        = proposals.map (fun p =>
            (headPrep cfg proposals gtClassIds gtBoxes0 gtMasks0).gtBoxes.map (iou p)) := by
  have hne : trueIdxs (gtClassIds.map (fun c => decide (c < 0))) ≠ [] := by
    intro h
    exact hcrowd (by simp [h])
  refine ⟨?_, ?_⟩ <;> simp [headPrep, hne]

theorem map_iou_row (proposals gts : List Box) {i : ℕ}
    (hi : i < proposals.length) :
    ((proposals.map (fun p => gts.map (iou p))).getD i []).length = gts.length := by
  rw [List.getD_eq_getElem _ _ (by simpa using hi), List.getElem_map]
  simp

theorem samplePositives_classIds_mem (cropResize : Mask → Box → SoftMask)
    (rlog : ℚ → ℚ) (permPos : ℕ → List ℕ) (cfg : Config) (proposals : List Box)
    (prep : Prep) (riMax : List ℚ) (c : ℤ)
    (hc : c ∈ (samplePositives cropResize rlog permPos cfg proposals prep riMax).classIds) :
    ∃ i ∈ positiveIndicesOf permPos cfg riMax,
      c = prep.gtIds.getD (argmaxIdx (prep.overlaps.getD i [])) 0 := by
  by_cases hcand : (posCandidatesOf riMax).length ≠ 0
  · simp only [samplePositives, if_pos hcand, List.map_map] at hc
    obtain ⟨i, hi, rfl⟩ := List.mem_map.mp hc
    exact ⟨i, hi, rfl⟩
  · rw [not_ne_iff] at hcand
    have hnil : posCandidatesOf riMax = [] := List.length_eq_zero.mp hcand
    simp [samplePositives, hnil] at hc

/-- C9 (amended): the exclusion of class-id-0 ground truth happens only in the
crowd branch: whenever at least one crowd instance (`class_id < 0`) exists,
ground truth is filtered to the `class_id > 0` subset before assignment, and
every class id attached to a kept positive roi is `> 0`; when no crowd
instance exists, the ground truth is not filtered and a class-0 entry with a
non-degenerate box can be assigned (see the counterexample). -/
theorem c9_crowd_branch_class_ids_pos
    (cropResize : Mask → Box → SoftMask) (rlog : ℚ → ℚ)
    (permPos permNeg : ℕ → List ℕ) (cfg : Config)
    (proposals : List Box) (gtClassIds : List ℤ) (gtBoxes0 : List Box)
    (gtMasks0 : List Mask) (riMax : List ℚ) (out : HeadTargets)
    (hperm : IsRandPerm permPos)
    (hcrowd : ∃ c ∈ gtClassIds, c < 0)
    (hri : rowMaxes (headPrep cfg proposals gtClassIds gtBoxes0 gtMasks0).overlaps
      = some riMax)
    (hout : buildHeadTargets cropResize rlog permPos permNeg cfg proposals
      gtClassIds gtBoxes0 gtMasks0 = some out) :
    ∀ c ∈ out.classIds, 0 < c := by
  have hcl : (trueIdxs (gtClassIds.map (fun c => decide (c < 0)))).length ≠ 0 := by
    obtain ⟨c, hcmem, hcneg⟩ := hcrowd
    intro h0
    have hnil : trueIdxs (gtClassIds.map (fun c => decide (c < 0))) = [] :=
      List.length_eq_zero.mp h0
    have hall := (trueIdxs_eq_nil_iff _).mp hnil
    have hfalse : decide (c < 0) = false :=
      hall _ (List.mem_map_of_mem _ hcmem)
    simp [hcneg] at hfalse
  have hfields := headPrep_crowd_fields cfg proposals gtClassIds gtBoxes0
    gtMasks0 hcl
  have hidpos := headPrep_crowd_gtIds_pos cfg proposals gtClassIds gtBoxes0
    gtMasks0 hcl
  have hspec := rowMaxes_spec hri
  simp only [buildHeadTargets, hri, Option.bind_eq_bind, Option.some_bind,
    Option.some_inj] at hout
  subst hout
  intro c hc
  obtain ⟨i, hi, rfl⟩ := samplePositives_classIds_mem cropResize rlog permPos
    cfg proposals (headPrep cfg proposals gtClassIds gtBoxes0 gtMasks0) riMax c hc
  have hicand : i ∈ posCandidatesOf riMax :=
    randPrefix_mem hperm (posCandidatesOf riMax) _ i hi
  have hiri : i < riMax.length := by
    have h := trueIdxs_mem.mp hicand
    simpa using h.1
  have hio : i < (headPrep cfg proposals gtClassIds gtBoxes0 gtMasks0).overlaps.length := by
    rw [← hspec.1]
    exact hiri
  have hrowmax := hspec.2 i hio
  have hip : i < proposals.length := by
    rw [hfields.2] at hio
    simpa using hio
  have hrl : (((headPrep cfg proposals gtClassIds gtBoxes0 gtMasks0).overlaps.getD i []).length)
      = (headPrep cfg proposals gtClassIds gtBoxes0 gtMasks0).gtBoxes.length := by
    rw [hfields.2]
    exact map_iou_row _ _ hip
  have hj := argmaxIdx_lt hrowmax
  have hjlt : argmaxIdx ((headPrep cfg proposals gtClassIds gtBoxes0 gtMasks0).overlaps.getD i [])
      < (headPrep cfg proposals gtClassIds gtBoxes0 gtMasks0).gtIds.length := by
    rw [hfields.1, ← hrl]
    exact hj
  rw [List.getD_eq_getElem _ _ hjlt]
  exact hidpos _ (List.getElem_mem hjlt)

/-- C9 witness: a crowd instance (`class_id = -1`) plus one class-1 ground
truth; the kept positive's class id is positive. -/
theorem c9_crowd_branch_class_ids_pos_witness :
    (((buildHeadTargets cr1 rl0 idPerm idPerm cfgA [boxU] [-1, 1]
      [box0, boxU] [[[true]], [[true]]]).getD ⟨[], [], [], []⟩).classIds).all
        (fun c => decide (0 < c)) = true := by
  have hpre : headPrep cfgA [boxU] [-1, 1] [box0, boxU] [[[true]], [[true]]]
      = ⟨[1], [boxU], [[[true]]], [true], [[1]]⟩ := by
    norm_num [headPrep, normBoxes, trueIdxs, iou, rowMax, cfgA, boxU, box0]
  have hri : rowMaxes (headPrep cfgA [boxU] [-1, 1] [box0, boxU]
      [[[true]], [[true]]]).overlaps = some [1] := by
    rw [hpre]
    norm_num [rowMaxes, rowMax]
  have hout : buildHeadTargets cr1 rl0 idPerm idPerm cfgA [boxU] [-1, 1]
      [box0, boxU] [[[true]], [[true]]]
      = some ((buildHeadTargets cr1 rl0 idPerm idPerm cfgA [boxU] [-1, 1]
        [box0, boxU] [[[true]], [[true]]]).getD ⟨[], [], [], []⟩) := by
    cases hb : buildHeadTargets cr1 rl0 idPerm idPerm cfgA [boxU] [-1, 1]
        [box0, boxU] [[[true]], [[true]]] with
    | none =>
      exfalso
      rw [buildHeadTargets, hri] at hb
      simp [Option.bind] at hb
    | some out => simp [hb]
  have h := c9_crowd_branch_class_ids_pos cr1 rl0 idPerm idPerm cfgA [boxU]
    [-1, 1] [box0, boxU] [[[true]], [[true]]] [1] _ idPerm_valid
    ⟨-1, by norm_num, by norm_num⟩ hri hout
  rw [List.all_eq_true]
  intro c hc
  exact decide_eq_true (h c hc)

/-- The configuration of the C9/C5 counterexamples: 2 rois per image, positive
ratio 1/2. -/
def cfgD : Config := ⟨(1, 1), 2, 1/2, false, ⟨1, 1, 1, 1⟩⟩

/-- C9 counterexample: no crowd instance, a single ground-truth entry with
class id 0 and the non-degenerate unit box, and one proposal equal to that
box: the ground truth is not filtered and the kept positive is assigned class
id 0. -/
theorem c9_counterexample :
    buildHeadTargets cr1 rl0 idPerm idPerm cfgD [boxU] [0] [boxU] [[[true]]]
        = some ⟨[boxU], [0], [⟨0, 0, 0, 0⟩], [[[1]]]⟩
      ∧ (∀ c ∈ ([0] : List ℤ), ¬ c < 0) := by
  have hprep : headPrep cfgD [boxU] [0] [boxU] [[[true]]]
      = ⟨[0], [boxU], [[[true]]], [true], [[1]]⟩ := by
    norm_num [headPrep, normBoxes, trueIdxs, iou, cfgD, boxU]
  have htgt : truncQ ((cfgD.trainRoisPerImage : ℚ) * cfgD.roiPositiveRatio) = 1 := by
    rw [show ((cfgD.trainRoisPerImage : ℚ) * cfgD.roiPositiveRatio) = 1 by
      norm_num [cfgD]]
    rw [truncQ_of_nonneg (by norm_num)]
    norm_num [Int.floor_eq_iff]
  have hposIdx : positiveIndicesOf idPerm cfgD [1] = [0] := by
    simp only [positiveIndicesOf, htgt]
    norm_num [posCandidatesOf, trueIdxs, pySliceTo, idPerm, List.range_succ]
  have hpos : samplePositives cr1 rl0 idPerm cfgD [boxU]
      ⟨[0], [boxU], [[[true]]], [true], [[1]]⟩ [1]
      = ⟨[boxU], [0], [⟨0, 0, 0, 0⟩], [[[1]]]⟩ := by
    simp only [samplePositives, hposIdx]
    norm_num [posCandidatesOf, trueIdxs, boxRefinement, divStd, miniMaskBoxes,
      roundMask, pyRound, argmaxIdx_singleton, cr1, rl0, cfgD, boxU,
      Int.floor_eq_iff]
  have hneg : negativeIndicesOf idPerm cfgD [1] ([true]) 1
      = [] := by
    norm_num [negativeIndicesOf, negCandidatesOf, trueIdxs, List.replicate]
  refine ⟨?_, by norm_num⟩
  simp only [buildHeadTargets, hprep]
  norm_num [rowMaxes, rowMax]
  simp only [hpos, hneg]
  norm_num
  exact hneg

theorem pySliceTo_nil (n : ℤ) : pySliceTo n ([] : List α) = [] := by
  unfold pySliceTo
  split_ifs <;> simp

theorem positiveIndicesOf_nil (permPos : ℕ → List ℕ) (cfg : Config)
    (riMax : List ℚ) (hperm : IsRandPerm permPos)
    (hnil : posCandidatesOf riMax = []) :
    positiveIndicesOf permPos cfg riMax = [] := by
  have h0 : permPos 0 = [] := by simpa using (hperm 0).eq_nil
  simp [positiveIndicesOf, hnil, h0, pySliceTo_nil]

theorem samplePositives_rois_eq (cropResize : Mask → Box → SoftMask)
    (rlog : ℚ → ℚ) (permPos : ℕ → List ℕ) (cfg : Config) (proposals : List Box)
    (prep : Prep) (riMax : List ℚ) (hperm : IsRandPerm permPos) :
    (samplePositives cropResize rlog permPos cfg proposals prep riMax).rois
      = (positiveIndicesOf permPos cfg riMax).map (fun i => proposals.getD i box0) := by
  by_cases hcand : (posCandidatesOf riMax).length ≠ 0
  · have hne : posCandidatesOf riMax ≠ [] := by
      intro h
      exact hcand (by simp [h])
    simp [samplePositives, hne]
  · rw [not_ne_iff] at hcand
    have hnil := List.length_eq_zero.mp hcand
    rw [positiveIndicesOf_nil permPos cfg riMax hperm hnil]
    simp [samplePositives, hnil]

theorem headPrep_overlaps_eq (cfg : Config) (proposals : List Box)
    (gtClassIds : List ℤ) (gtBoxes0 : List Box) (gtMasks0 : List Mask) :
    (headPrep cfg proposals gtClassIds gtBoxes0 gtMasks0).overlaps
      = proposals.map (fun p =>
          (headPrep cfg proposals gtClassIds gtBoxes0 gtMasks0).gtBoxes.map (iou p)) := by
  simp only [headPrep]
  split_ifs <;> rfl

theorem headPrep_noCrowd_length (cfg : Config) (proposals : List Box)
    (gtClassIds : List ℤ) (gtBoxes0 : List Box) (gtMasks0 : List Mask) :
    (headPrep cfg proposals gtClassIds gtBoxes0 gtMasks0).noCrowd.length
      = proposals.length := by
  simp only [headPrep]
  split_ifs <;> simp

theorem map_iou_row_eq (proposals gts : List Box) {i : ℕ}
    (hi : i < proposals.length) :
    (proposals.map (fun p => gts.map (iou p))).getD i []
      = gts.map (iou (proposals.getD i box0)) := by
  rw [List.getD_eq_getElem _ _ (by simpa using hi), List.getElem_map,
    List.getD_eq_getElem _ _ hi]

theorem posCandidatesOf_mem {riMax : List ℚ} {i : ℕ} :
    i ∈ posCandidatesOf riMax ↔ i < riMax.length ∧ (1:ℚ)/2 ≤ riMax.getD i 0 := by
  unfold posCandidatesOf
  rw [trueIdxs_mem]
  constructor
  · rintro ⟨h1, h2⟩
    have h1' : i < riMax.length := by simpa using h1
    refine ⟨h1', ?_⟩
    rw [List.getD_eq_getElem _ _ h1] at h2
    rw [List.getElem_map] at h2
    rw [List.getD_eq_getElem _ _ h1']
    exact of_decide_eq_true h2
  · rintro ⟨h1, h2⟩
    have h1' : i < (riMax.map (fun v => decide ((1:ℚ)/2 ≤ v))).length := by
      simpa using h1
    refine ⟨h1', ?_⟩
    rw [List.getD_eq_getElem _ _ h1', List.getElem_map]
    rw [List.getD_eq_getElem _ _ h1] at h2
    exact decide_eq_true h2

theorem negCandidatesOf_mem {riMax : List ℚ} {noCrowd : List Bool} {i : ℕ}
    (hlen : noCrowd.length = riMax.length) :
    i ∈ negCandidatesOf riMax noCrowd ↔
      i < riMax.length ∧ riMax.getD i 0 < (1:ℚ)/2 ∧ noCrowd.getD i true = true := by
  unfold negCandidatesOf
  rw [trueIdxs_mem]
  have hzlen : (List.zipWith (fun v nc => decide (v < (1:ℚ)/2) && nc) riMax noCrowd).length
      = riMax.length := by
    rw [List.length_zipWith, hlen, Nat.min_self]
  constructor
  · rintro ⟨h1, h2⟩
    have h1' : i < riMax.length := by rwa [hzlen] at h1
    have h1n : i < noCrowd.length := by omega
    rw [List.getD_eq_getElem _ _ h1, List.getElem_zipWith] at h2
    obtain ⟨ha, hb⟩ := Bool.and_eq_true_iff.mp h2
    refine ⟨h1', ?_, ?_⟩
    · rw [List.getD_eq_getElem _ _ h1']
      exact of_decide_eq_true ha
    · rw [List.getD_eq_getElem _ _ h1n]
      exact hb
  · rintro ⟨h1, h2, h3⟩
    have h1z : i < (List.zipWith (fun v nc => decide (v < (1:ℚ)/2) && nc) riMax noCrowd).length := by
      rwa [hzlen]
    have h1n : i < noCrowd.length := by omega
    refine ⟨h1z, ?_⟩
    rw [List.getD_eq_getElem _ _ h1z, List.getElem_zipWith]
    rw [List.getD_eq_getElem _ _ h1] at h2
    rw [List.getD_eq_getElem _ _ h1n] at h3
    rw [Bool.and_eq_true_iff]
    exact ⟨decide_eq_true h2, h3⟩

theorem headPrep_gtBox_mem (cfg : Config) (proposals : List Box)
    (gtClassIds : List ℤ) (gtBoxes0 : List Box) (gtMasks0 : List Mask)
    (halign : gtClassIds.length = gtBoxes0.length) {k : ℕ}
    (hk : k < gtClassIds.length) (hkpos : 0 < gtClassIds.getD k 0) :
    (normBoxes cfg gtBoxes0).getD k box0
      ∈ (headPrep cfg proposals gtClassIds gtBoxes0 gtMasks0).gtBoxes := by
  by_cases hcrowd : (trueIdxs (gtClassIds.map (fun c => decide (c < 0)))).length ≠ 0
  · simp only [headPrep, if_pos hcrowd]
    apply List.mem_map.mpr
    refine ⟨k, ?_, rfl⟩
    apply trueIdxs_mem.mpr
    refine ⟨by simpa using hk, ?_⟩
    rw [List.getD_eq_getElem _ _ (by simpa using hk), List.getElem_map]
    rw [List.getD_eq_getElem _ _ hk] at hkpos
    exact decide_eq_true hkpos
  · simp only [headPrep, if_neg hcrowd]
    have hk2 : k < (normBoxes cfg gtBoxes0).length := by
      simp only [normBoxes, List.length_map]
      omega
    rw [List.getD_eq_getElem _ _ hk2]
    exact List.getElem_mem hk2

theorem rowMax_of_ne_nil {l : List ℚ} (h : l ≠ []) : ∃ v, rowMax l = some v := by
  cases l with
  | nil => exact absurd rfl h
  | cons x xs => exact ⟨xs.foldl max x, rfl⟩

theorem headPrep_noCrowd_spec (cfg : Config) (proposals : List Box)
    (gtClassIds : List ℤ) (gtBoxes0 : List Box) (gtMasks0 : List Mask)
    (hcl : (trueIdxs (gtClassIds.map (fun c => decide (c < 0)))).length ≠ 0)
    {i : ℕ} (hi : i < proposals.length)
    (hnc : (headPrep cfg proposals gtClassIds gtBoxes0 gtMasks0).noCrowd.getD i true = true)
    {k : ℕ} (hk : k < gtClassIds.length) (hkneg : gtClassIds.getD k 0 < 0) :
    iou (proposals.getD i box0) ((normBoxes cfg gtBoxes0).getD k box0)
      < 1/1000 := by
  simp only [headPrep, if_pos hcl] at hnc
  have hi2 : i < (proposals.map (fun p =>
      ((trueIdxs (gtClassIds.map (fun c => decide (c < 0)))).map
        (fun j => (normBoxes cfg gtBoxes0).getD j box0)).map (iou p))).length := by
    simpa using hi
  rw [List.getD_eq_getElem _ _ (by simpa using hi2), List.getElem_map,
    List.getElem_map] at hnc
  have hlt := of_decide_eq_true hnc
  have hkmem : k ∈ trueIdxs (gtClassIds.map (fun c => decide (c < 0))) := by
    apply trueIdxs_mem.mpr
    refine ⟨by simpa using hk, ?_⟩
    rw [List.getD_eq_getElem _ _ (by simpa using hk), List.getElem_map]
    rw [List.getD_eq_getElem _ _ hk] at hkneg
    exact decide_eq_true hkneg
  have hbmem : (normBoxes cfg gtBoxes0).getD k box0
      ∈ (trueIdxs (gtClassIds.map (fun c => decide (c < 0)))).map
        (fun j => (normBoxes cfg gtBoxes0).getD j box0) :=
    List.mem_map_of_mem _ hkmem
  have hrowne : ((trueIdxs (gtClassIds.map (fun c => decide (c < 0)))).map
      (fun j => (normBoxes cfg gtBoxes0).getD j box0)).map
        (iou (proposals.getD i box0)) ≠ [] := by
    intro hempty
    rw [List.map_eq_nil_iff] at hempty
    rw [hempty] at hbmem
    exact absurd hbmem (List.not_mem_nil _)
  obtain ⟨v, hv⟩ := rowMax_of_ne_nil hrowne
  have hioumem : iou (proposals.getD i box0) ((normBoxes cfg gtBoxes0).getD k box0)
      ∈ ((trueIdxs (gtClassIds.map (fun c => decide (c < 0)))).map
        (fun j => (normBoxes cfg gtBoxes0).getD j box0)).map
          (iou (proposals.getD i box0)) :=
    List.mem_map_of_mem _ hbmem
  have hle := rowMax_ge hv _ hioumem
  rw [List.getD_eq_getElem _ _ hi] at hv hle ⊢
  rw [hv] at hlt
  simp only [Option.getD_some] at hlt
  exact lt_of_le_of_lt hle hlt

theorem negativeIndicesOf_mem_cand (permNeg : ℕ → List ℕ) (cfg : Config)
    (riMax : List ℚ) (noCrowd : List Bool) (p : ℕ)
    (hperm : IsRandPerm permNeg) :
    ∀ i ∈ negativeIndicesOf permNeg cfg riMax noCrowd p,
      i ∈ negCandidatesOf riMax noCrowd := by
  intro i hi
  rw [negativeIndicesOf_eq] at hi
  split_ifs at hi with h
  · exact randPrefix_mem hperm _ _ i hi
  · simp at hi

theorem crowdCond_of_exists {gtClassIds : List ℤ}
    (h : ∃ c ∈ gtClassIds, c < 0) :
    (trueIdxs (gtClassIds.map (fun c => decide (c < 0)))).length ≠ 0 := by
  obtain ⟨c, hcmem, hcneg⟩ := h
  intro h0
  have hnil : trueIdxs (gtClassIds.map (fun c => decide (c < 0))) = [] :=
    List.length_eq_zero.mp h0
  have hall := (trueIdxs_eq_nil_iff _).mp hnil
  have hfalse : decide (c < 0) = false := hall _ (List.mem_map_of_mem _ hcmem)
  simp [hcneg] at hfalse

/-- C5 (amended): for every valid random draw: the positive block of the
output consists of the proposals at the sampled positive indices, each of
which has IoU ≥ 0.5 with some box of the assignment ground-truth set (the
`class_id > 0` subset when a crowd instance exists, the full — unfiltered,
possibly including class-0 entries — ground truth otherwise); every sampled
negative has max-IoU < 0.5, has IoU < 0.5 with every `class_id > 0`
ground-truth box, is not flagged in-crowd, and, when crowd boxes exist, has
IoU < 0.001 with every crowd box; a proposal with max-IoU ≥ 0.5 is a positive
candidate regardless of its in-crowd flag; and when no crowd instance exists
every proposal is negative-eligible. -/
theorem c5_positive_negative_membership
    (cropResize : Mask → Box → SoftMask) (rlog : ℚ → ℚ)
    (permPos permNeg : ℕ → List ℕ) (cfg : Config)
    (proposals : List Box) (gtClassIds : List ℤ) (gtBoxes0 : List Box)
    (gtMasks0 : List Mask) (riMax : List ℚ)
    (hperm : IsRandPerm permPos) (hpermN : IsRandPerm permNeg)
    (halign : gtClassIds.length = gtBoxes0.length)
    (hri : rowMaxes (headPrep cfg proposals gtClassIds gtBoxes0 gtMasks0).overlaps
      = some riMax) :
    let prep := headPrep cfg proposals gtClassIds gtBoxes0 gtMasks0
    let pos := samplePositives cropResize rlog permPos cfg proposals prep riMax
    let posIdx := positiveIndicesOf permPos cfg riMax
    let negIdx := negativeIndicesOf permNeg cfg riMax prep.noCrowd pos.rois.length
    pos.rois = posIdx.map (fun i => proposals.getD i box0)
      ∧ (∀ i ∈ posIdx, i < proposals.length ∧
          ∃ b ∈ prep.gtBoxes, (1:ℚ)/2 ≤ iou (proposals.getD i box0) b)
      ∧ (∀ i ∈ negIdx, i < proposals.length ∧ riMax.getD i 0 < (1:ℚ)/2
          ∧ prep.noCrowd.getD i true = true
          ∧ ∀ k, k < gtClassIds.length → 0 < gtClassIds.getD k 0 →
              iou (proposals.getD i box0) ((normBoxes cfg gtBoxes0).getD k box0)
                < (1:ℚ)/2)
      ∧ ((∃ c ∈ gtClassIds, c < 0) → ∀ i ∈ negIdx, ∀ k, k < gtClassIds.length →
          gtClassIds.getD k 0 < 0 →
          iou (proposals.getD i box0) ((normBoxes cfg gtBoxes0).getD k box0)
            < 1/1000)
      ∧ (∀ i, i < riMax.length → (1:ℚ)/2 ≤ riMax.getD i 0 →
          i ∈ posCandidatesOf riMax)
      ∧ ((∀ c ∈ gtClassIds, ¬ c < 0) →
          prep.noCrowd = List.replicate proposals.length true) := by
  intro prep pos posIdx negIdx
  have hspec := rowMaxes_spec hri
  have hov := headPrep_overlaps_eq cfg proposals gtClassIds gtBoxes0 gtMasks0
  have hriLen : riMax.length = proposals.length := by
    rw [hspec.1, hov, List.length_map]
  have hnclen : prep.noCrowd.length = riMax.length := by
    rw [headPrep_noCrowd_length, hriLen]
  refine ⟨samplePositives_rois_eq cropResize rlog permPos cfg proposals prep
    riMax hperm, ?_, ?_, ?_, ?_, ?_⟩
  · intro i hi
    have hic := randPrefix_mem hperm (posCandidatesOf riMax) _ i hi
    obtain ⟨hilen, hige⟩ := posCandidatesOf_mem.mp hic
    have hip : i < proposals.length := by omega
    refine ⟨hip, ?_⟩
    have hio : i < prep.overlaps.length := by
      rw [← hspec.1]
      exact hilen
    have hrm := hspec.2 i hio
    rw [hov, map_iou_row_eq _ _ hip] at hrm
    obtain ⟨b, hb, hbeq⟩ := List.mem_map.mp (rowMax_mem hrm)
    exact ⟨b, hb, by rw [hbeq]; exact hige⟩
  · intro i hi
    have hic := negativeIndicesOf_mem_cand permNeg cfg riMax prep.noCrowd
      pos.rois.length hpermN i hi
    obtain ⟨h1, h2, h3⟩ := (negCandidatesOf_mem hnclen).mp hic
    have hip : i < proposals.length := by omega
    refine ⟨hip, h2, h3, ?_⟩
    intro k hk hkpos
    have hbmem := headPrep_gtBox_mem cfg proposals gtClassIds gtBoxes0 gtMasks0
      halign hk hkpos
    have hio : i < prep.overlaps.length := by
      rw [← hspec.1]
      exact h1
    have hrm := hspec.2 i hio
    rw [hov, map_iou_row_eq _ _ hip] at hrm
    have hle := rowMax_ge hrm _ (List.mem_map_of_mem _ hbmem)
    exact lt_of_le_of_lt hle h2
  · intro hcrowd i hi k hk hkneg
    have hcl := crowdCond_of_exists hcrowd
    have hic := negativeIndicesOf_mem_cand permNeg cfg riMax prep.noCrowd
      pos.rois.length hpermN i hi
    obtain ⟨h1, h2, h3⟩ := (negCandidatesOf_mem hnclen).mp hic
    have hip : i < proposals.length := by omega
    exact headPrep_noCrowd_spec cfg proposals gtClassIds gtBoxes0 gtMasks0 hcl
      hip h3 hk hkneg
  · intro i h1 h2
    exact posCandidatesOf_mem.mpr ⟨h1, h2⟩
  · intro hnone
    have hnil : trueIdxs (gtClassIds.map (fun c => decide (c < 0))) = [] := by
      apply (trueIdxs_eq_nil_iff _).mpr
      intro b hb
      obtain ⟨c, hc, rfl⟩ := List.mem_map.mp hb
      exact decide_eq_false (hnone c hc)
    show (headPrep cfg proposals gtClassIds gtBoxes0 gtMasks0).noCrowd = _
    simp only [headPrep, hnil]
    simp

/-- C5 witness: the membership theorem applied to one proposal covering the
class-1 ground truth, with one distant crowd instance present. -/
theorem c5_positive_negative_membership_witness :
    (let prep := headPrep cfgA [boxU] [-1, 1] [box0, boxU] [[[true]], [[true]]]
     let pos := samplePositives cr1 rl0 idPerm cfgA [boxU] prep [1]
     let posIdx := positiveIndicesOf idPerm cfgA [1]
     let negIdx := negativeIndicesOf idPerm cfgA [1] prep.noCrowd pos.rois.length
     pos.rois = posIdx.map (fun i => [boxU].getD i box0)
       ∧ (∀ i ∈ posIdx, i < [boxU].length ∧
           ∃ b ∈ prep.gtBoxes, (1:ℚ)/2 ≤ iou ([boxU].getD i box0) b)
       ∧ (∀ i ∈ negIdx, i < [boxU].length ∧ [(1:ℚ)].getD i 0 < (1:ℚ)/2
           ∧ prep.noCrowd.getD i true = true
           ∧ ∀ k, k < [(-1:ℤ), 1].length → 0 < [(-1:ℤ), 1].getD k 0 →
               iou ([boxU].getD i box0) ((normBoxes cfgA [box0, boxU]).getD k box0)
                 < (1:ℚ)/2)
       ∧ ((∃ c ∈ [(-1:ℤ), 1], c < 0) → ∀ i ∈ negIdx, ∀ k, k < [(-1:ℤ), 1].length →
           [(-1:ℤ), 1].getD k 0 < 0 →
           iou ([boxU].getD i box0) ((normBoxes cfgA [box0, boxU]).getD k box0)
             < 1/1000)
       ∧ (∀ i, i < [(1:ℚ)].length → (1:ℚ)/2 ≤ [(1:ℚ)].getD i 0 →
           i ∈ posCandidatesOf [1])
       ∧ ((∀ c ∈ [(-1:ℤ), 1], ¬ c < 0) →
           prep.noCrowd = List.replicate [boxU].length true)) :=
  c5_positive_negative_membership cr1 rl0 idPerm idPerm cfgA [boxU] [-1, 1]
    [box0, boxU] [[[true]], [[true]]] [1] idPerm_valid idPerm_valid rfl
    (by
      have hpre : headPrep cfgA [boxU] [-1, 1] [box0, boxU] [[[true]], [[true]]]
          = ⟨[1], [boxU], [[[true]]], [true], [[1]]⟩ := by
        norm_num [headPrep, normBoxes, trueIdxs, iou, rowMax, cfgA, boxU, box0]
      rw [hpre]
      norm_num [rowMaxes, rowMax])

/-- C5 counterexample: no crowd instance and a single class-0 ground-truth
entry whose (non-degenerate) unit box coincides with the only proposal: the
positive prefix of the output is nonempty (`rois = [boxU]`, assigned class id
0) although no ground-truth box with class id `> 0` exists at all, so the
positive cannot have IoU ≥ 0.5 with any non-crowd (class `> 0`) ground truth. -/
theorem c5_counterexample :
    buildHeadTargets cr1 rl0 idPerm idPerm cfgA [boxU] [0] [boxU] [[[true]]]
        = some ⟨[boxU], [0], [⟨0, 0, 0, 0⟩], [[[1]]]⟩
      ∧ (∀ c ∈ ([0] : List ℤ), ¬ 0 < c) := by
  have hprep : headPrep cfgA [boxU] [0] [boxU] [[[true]]]
      = ⟨[0], [boxU], [[[true]]], [true], [[1]]⟩ := by
    norm_num [headPrep, normBoxes, trueIdxs, iou, cfgA, boxU]
  have htgt : truncQ ((cfgA.trainRoisPerImage : ℚ) * cfgA.roiPositiveRatio) = 2 := by
    rw [show ((cfgA.trainRoisPerImage : ℚ) * cfgA.roiPositiveRatio) = 2 by
      norm_num [cfgA]]
    rw [truncQ_of_nonneg (by norm_num)]
    norm_num [Int.floor_eq_iff]
  have hposIdx : positiveIndicesOf idPerm cfgA [1] = [0] := by
    simp only [positiveIndicesOf, htgt]
    norm_num [posCandidatesOf, trueIdxs, pySliceTo, idPerm, List.range_succ]
  have hpos : samplePositives cr1 rl0 idPerm cfgA [boxU]
      ⟨[0], [boxU], [[[true]]], [true], [[1]]⟩ [1]
      = ⟨[boxU], [0], [⟨0, 0, 0, 0⟩], [[[1]]]⟩ := by
    simp only [samplePositives, hposIdx]
    norm_num [posCandidatesOf, trueIdxs, boxRefinement, divStd, miniMaskBoxes,
      roundMask, pyRound, argmaxIdx_singleton, cr1, rl0, cfgA, boxU,
      Int.floor_eq_iff]
  have hneg : negativeIndicesOf idPerm cfgA [1] [true] 1 = [] := by
    norm_num [negativeIndicesOf, negCandidatesOf, trueIdxs]
  refine ⟨?_, by norm_num⟩
  simp only [buildHeadTargets, hprep]
  norm_num [rowMaxes, rowMax]
  simp only [hpos, hneg]
  norm_num
  exact hneg
